import Mathlib

/-!
Verification development for the schemeless-mongodb-api repository.

The core under study is `src/routes/crud.js` (structured-query compiler
`parseStructuredQuery`, the transactions pipeline builder
`buildTransactionsPipeline`, and the list-route pipeline assembly) together
with the named-query registry and the parameter-substitution engine
(`replaceParametersInPipeline`) of the queries router.

JavaScript runtime values are modelled by `JSVal`; JavaScript numbers are
idealised as extended rationals (`JSNum`): IEEE-754 double rounding is not
modelled, which is irrelevant to the properties proved here (they concern
structure, small integers and exactly representable decimals).  Objects are
modelled as insertion-ordered association lists of own properties, plus the
`Object.prototype` chain at the two property reads where the source performs
a bare lookup on an object literal: the operator-map lookup
(`opMapLookup`, which falls through to the inherited member's stringified
form used as a computed key) and the params lookup of the substitution
engine (`paramGet`, which resolves a collision to the inherited member,
modelled by the `JSVal.protoFn` constructor).  Universally quantified
statements over field names elsewhere carry a `protoSafe` hypothesis where
that boundary matters.
-/

/-- Model of a JavaScript number: an exact rational, an infinity, or NaN. -/
inductive JSNum where
  | finite (q : ℚ)
  | posInf
  | negInf
  | nan
deriving DecidableEq, Repr

namespace JSNum

/-- Model of JavaScript `isNaN` on an already-converted number. -/
def isNaN : JSNum → Bool
  | .nan => true
  | _ => false

end JSNum

/-- Model of a JavaScript runtime value as far as the query compiler cares:
`undefined`, `null`, booleans, numbers, strings, arrays and plain objects
(insertion-ordered own properties, no prototype chain). -/
inductive JSVal where
  | undefined
  | null
  | bool (b : Bool)
  | num (n : JSNum)
  | str (s : String)
  | arr (elems : List JSVal)
  | obj (props : List (String × JSVal))
  | protoFn (name : String)
deriving Repr

mutual

/-- Boolean structural equality on modelled JS values. -/
def JSVal.beq : JSVal → JSVal → Bool
  | .undefined, .undefined => true
  | .null, .null => true
  | .bool a, .bool b => a == b
  | .num a, .num b => a == b
  | .str a, .str b => a == b
  | .arr xs, .arr ys => JSVal.beqList xs ys
  | .obj ps, .obj qs => JSVal.beqProps ps qs
  | .protoFn a, .protoFn b => a == b
  | _, _ => false

/-- Boolean structural equality on lists of modelled JS values. -/
def JSVal.beqList : List JSVal → List JSVal → Bool
  | [], [] => true
  | x :: xs, y :: ys => JSVal.beq x y && JSVal.beqList xs ys
  | _, _ => false

/-- Boolean structural equality on property lists of modelled JS objects. -/
def JSVal.beqProps : List (String × JSVal) → List (String × JSVal) → Bool
  | [], [] => true
  | (k, v) :: ps, (l, w) :: qs => k == l && JSVal.beq v w && JSVal.beqProps ps qs
  | _, _ => false

end

mutual

theorem JSVal.eq_of_beq : ∀ {a b : JSVal}, JSVal.beq a b = true → a = b
  | .undefined, .undefined, _ => rfl
  | .null, .null, _ => rfl
  | .bool _, .bool _, h => by
      simp only [JSVal.beq, beq_iff_eq] at h; exact congrArg JSVal.bool h
  | .num _, .num _, h => by
      simp only [JSVal.beq, beq_iff_eq] at h; exact congrArg JSVal.num h
  | .str _, .str _, h => by
      simp only [JSVal.beq, beq_iff_eq] at h; exact congrArg JSVal.str h
  | .arr _, .arr _, h => congrArg JSVal.arr (JSVal.eqList_of_beqList h)
  | .obj _, .obj _, h => congrArg JSVal.obj (JSVal.eqProps_of_beqProps h)
  | .protoFn _, .protoFn _, h => by
      simp only [JSVal.beq, beq_iff_eq] at h; exact congrArg JSVal.protoFn h

theorem JSVal.eqList_of_beqList :
    ∀ {xs ys : List JSVal}, JSVal.beqList xs ys = true → xs = ys
  | [], [], _ => rfl
  | x :: xs, y :: ys, h => by
      simp only [JSVal.beqList, Bool.and_eq_true] at h
      exact congrArg₂ List.cons (JSVal.eq_of_beq h.1) (JSVal.eqList_of_beqList h.2)

theorem JSVal.eqProps_of_beqProps :
    ∀ {ps qs : List (String × JSVal)}, JSVal.beqProps ps qs = true → ps = qs
  | [], [], _ => rfl
  | (k, v) :: ps, (l, w) :: qs, h => by
      simp only [JSVal.beqProps, Bool.and_eq_true, beq_iff_eq] at h
      have hk : k = l := h.1.1
      have hv : v = w := JSVal.eq_of_beq h.1.2
      have ht : ps = qs := JSVal.eqProps_of_beqProps h.2
      rw [hk, hv, ht]

end

mutual

theorem JSVal.beq_refl : ∀ a : JSVal, JSVal.beq a a = true
  | .undefined => rfl
  | .null => rfl
  | .bool b => by simp [JSVal.beq]
  | .num n => by simp [JSVal.beq]
  | .str s => by simp [JSVal.beq]
  | .arr xs => JSVal.beqList_refl xs
  | .obj ps => JSVal.beqProps_refl ps
  | .protoFn a => by simp [JSVal.beq]

theorem JSVal.beqList_refl : ∀ xs : List JSVal, JSVal.beqList xs xs = true
  | [] => rfl
  | x :: xs => by
      simp only [JSVal.beqList, Bool.and_eq_true]
      exact ⟨JSVal.beq_refl x, JSVal.beqList_refl xs⟩

theorem JSVal.beqProps_refl : ∀ ps : List (String × JSVal), JSVal.beqProps ps ps = true
  | [] => rfl
  | (k, v) :: ps => by
      simp only [JSVal.beqProps, Bool.and_eq_true, beq_self_eq_true]
      exact ⟨⟨trivial, JSVal.beq_refl v⟩, JSVal.beqProps_refl ps⟩

end

instance : DecidableEq JSVal := fun a b =>
  if h : JSVal.beq a b = true then .isTrue (JSVal.eq_of_beq h)
  else .isFalse (fun he => h (he ▸ JSVal.beq_refl a))

deriving instance DecidableEq for Except

/-- JSON values (the possible results of a successful `JSON.parse`):
no `undefined`, no NaN/Infinity. -/
inductive Json where
  | null
  | bool (b : Bool)
  | num (q : ℚ)
  | str (s : String)
  | arr (elems : List Json)
  | obj (props : List (String × Json))
deriving Repr

mutual

/-- Injection of a JSON value into the runtime value model. -/
def Json.toVal : Json → JSVal
  | .null => .null
  | .bool b => .bool b
  | .num q => .num (.finite q)
  | .str s => .str s
  | .arr xs => .arr (Json.toValList xs)
  | .obj kvs => .obj (Json.toValProps kvs)

/-- Injection of a JSON array's elements. -/
def Json.toValList : List Json → List JSVal
  | [] => []
  | x :: xs => x.toVal :: Json.toValList xs

/-- Injection of a JSON object's properties. -/
def Json.toValProps : List (String × Json) → List (String × JSVal)
  | [] => []
  | (k, v) :: kvs => (k, v.toVal) :: Json.toValProps kvs

end

/-- Errors a request handler can observe from the modelled code: the explicit
`Invalid query JSON format` error, and the implicit TypeErrors the
JavaScript engine raises (destructuring of null/undefined, `for ... of` on a
non-iterable, `.replace` called on a non-string). -/
inductive JSErr where
  | invalidQueryJson
  | destructureNullish
  | notIterable
  | replaceNonString
deriving DecidableEq, Repr

namespace JSVal

/-- JavaScript truthiness of a modelled value. -/
def truthy : JSVal → Bool
  | .undefined => false
  | .null => false
  | .bool b => b
  | .num (.finite q) => if q = 0 then false else true
  | .num .nan => false
  | .num _ => true
  | .str s => if s = "" then false else true
  | .arr _ => true
  | .obj _ => true
  | .protoFn _ => true

/-- Lookup of an own property in an insertion-ordered property list
(`obj[key]` on a plain object); `undefined` when absent. -/
def objGet (props : List (String × JSVal)) (key : String) : JSVal :=
  match props with
  | [] => .undefined
  | (k, v) :: rest => if k = key then v else objGet rest key

/-- Assignment `obj[key] = value` on a plain object: updates the value in
place when the key exists (keeping its position), otherwise appends, as
JavaScript objects keep string keys in insertion order. -/
def objSet (props : List (String × JSVal)) (key : String) (v : JSVal) :
    List (String × JSVal) :=
  match props with
  | [] => [(key, v)]
  | (k, w) :: rest =>
      if k = key then (k, v) :: rest else (k, w) :: objSet rest key v

/-- Property read `v[key]` used by destructuring on a non-nullish receiver
(`null`/`undefined` receivers throw, see `nullish`): objects look up their
own properties, primitives and arrays yield `undefined` for the property
names the compiler reads (non-index names; numeric index properties and
`length` of strings/arrays are not needed here and are not modelled).
Inherited `Object.prototype` members are not modelled. -/
def getProp : JSVal → String → JSVal
  | .obj props, key => objGet props key
  | _, _ => .undefined

/-- Whether destructuring a value throws (`null`/`undefined` receivers). -/
def nullish : JSVal → Bool
  | .undefined => true
  | .null => true
  | _ => false

end JSVal

/-! Character-level helpers modelling the JavaScript string-to-number
builtins (`Number`, `parseFloat`, `parseInt`).  Unicode white-space beyond
the common ASCII forms, NBSP and the BOM is not modelled. -/

/-- JavaScript white-space for numeric trimming. -/
def isJsWs (c : Char) : Bool :=
  c = ' ' ∨ c = '\t' ∨ c = '\n' ∨ c = '\r' ∨ c = Char.ofNat 11 ∨
    c = Char.ofNat 12 ∨ c = Char.ofNat 160 ∨ c = Char.ofNat 65279

/-- Trim JavaScript white-space from both ends. -/
def jsTrim (l : List Char) : List Char :=
  ((l.dropWhile isJsWs).reverse.dropWhile isJsWs).reverse

/-- Numeric value of a list of decimal digits. -/
def natOfDigits (l : List Char) : Nat :=
  l.foldl (fun n c => 10 * n + (c.toNat - 48)) 0

/-- Digit test and value for an arbitrary radix (2, 8 or 16). -/
def radixDigitVal (c : Char) : Option Nat :=
  if '0' ≤ c ∧ c ≤ '9' then some (c.toNat - 48)
  else if 'a' ≤ c ∧ c ≤ 'f' then some (c.toNat - 87)
  else if 'A' ≤ c ∧ c ≤ 'F' then some (c.toNat - 55)
  else none

/-- Whether `c` is a digit of the given radix. -/
def isRadixDigit (base : Nat) (c : Char) : Bool :=
  match radixDigitVal c with
  | some v => v < base
  | none => false

/-- Numeric value of a list of radix digits. -/
def natOfRadixDigits (base : Nat) (l : List Char) : Nat :=
  l.foldl (fun n c => base * n + (radixDigitVal c).getD 0) 0

/-- Strip one optional leading sign; `true` means negative. -/
def splitSign : List Char → Bool × List Char
  | '-' :: r => (true, r)
  | '+' :: r => (false, r)
  | r => (false, r)

/-- Parse the optional exponent tail of a decimal literal; the input must be
consumed entirely. -/
def parseExponentTail (r : List Char) (m : ℚ) : Option ℚ :=
  match r with
  | [] => some m
  | c :: r1 =>
      if c = 'e' ∨ c = 'E' then
        let (neg, r2) := splitSign r1
        let ds := r2.takeWhile Char.isDigit
        let r3 := r2.dropWhile Char.isDigit
        if ds.isEmpty ∨ ¬ r3.isEmpty then none
        else
          let e : ℤ := if neg then -(natOfDigits ds : ℤ) else (natOfDigits ds : ℤ)
          some (m * (10 : ℚ) ^ e)
      else none

/-- Parse a complete unsigned decimal literal `digits [. digits] [exp]` with
digits required on at least one side of the dot. -/
def parseUnsignedDecimal (t : List Char) : Option ℚ :=
  let ip := t.takeWhile Char.isDigit
  let r1 := t.dropWhile Char.isDigit
  match r1 with
  | '.' :: r2 =>
      let fp := r2.takeWhile Char.isDigit
      let r3 := r2.dropWhile Char.isDigit
      if ip.isEmpty ∧ fp.isEmpty then none
      else
        parseExponentTail r3
          ((natOfDigits ip : ℚ) + (natOfDigits fp : ℚ) / (10 : ℚ) ^ fp.length)
  | _ => if ip.isEmpty then none else parseExponentTail r1 (natOfDigits ip : ℚ)

/-- Parse a complete radix-prefixed literal body (the part after `0x`, `0b`
or `0o`). -/
def parseRadixBody (base : Nat) (r : List Char) : Option JSNum :=
  if r.isEmpty ∨ ¬ r.all (isRadixDigit base) then none
  else some (.finite (natOfRadixDigits base r))

/-- Parse a complete signed decimal literal or `Infinity`. -/
def parseSignedDecimalOrInf (t : List Char) : Option JSNum :=
  let (neg, t1) := splitSign t
  if t1 = ['I', 'n', 'f', 'i', 'n', 'i', 't', 'y'] then
    some (if neg then .negInf else .posInf)
  else
    (parseUnsignedDecimal t1).map fun q => .finite (if neg then -q else q)

/-- Parse a complete trimmed numeric literal as JavaScript `Number` does
(decimal with optional sign/fraction/exponent, `Infinity`, and unsigned
`0x`/`0b`/`0o` radix literals). -/
def parseNumericLiteral (t : List Char) : Option JSNum :=
  match t with
  | '0' :: c :: r =>
      if c = 'x' ∨ c = 'X' then parseRadixBody 16 r
      else if c = 'b' ∨ c = 'B' then parseRadixBody 2 r
      else if c = 'o' ∨ c = 'O' then parseRadixBody 8 r
      else parseSignedDecimalOrInf t
  | _ => parseSignedDecimalOrInf t

/-- Model of JavaScript `Number(s)` on a string: trim; empty means `0`;
otherwise the full literal or NaN. -/
def jsStringToNumber (s : String) : JSNum :=
  let t := jsTrim s.data
  if t.isEmpty then .finite 0 else (parseNumericLiteral t).getD .nan

/-- Whether an unsigned float literal starts at the head of the list
(`Infinity`, a digit, or a dot followed by a digit). -/
def startsUnsignedFloat (l : List Char) : Bool :=
  ['I', 'n', 'f', 'i', 'n', 'i', 't', 'y'].isPrefixOf l ||
    match l with
    | [] => false
    | c :: r =>
        c.isDigit || (c == '.' && match r with
          | d :: _ => d.isDigit
          | [] => false)

/-- Model of `isNaN(parseFloat(s))`: `parseFloat` returns NaN exactly when,
after leading white-space and an optional sign, no float literal starts. -/
def jsParseFloatIsNaN (s : String) : Bool :=
  let l := s.data.dropWhile isJsWs
  let (_, l1) := splitSign l
  ¬ startsUnsignedFloat l1

/-- Decimal rendering of a non-negative rational whose denominator divides a
power of ten, as JavaScript prints such numbers in the plain-notation range.
`fracDigits` is the number of digits after the point. -/
def decimalStringOf (m : Nat) (fracDigits : Nat) : String :=
  if fracDigits = 0 then toString m
  else
    let ip := m / 10 ^ fracDigits
    let fp := m % 10 ^ fracDigits
    let fs := toString fp
    let pad := String.mk (List.replicate (fracDigits - fs.length) '0')
    toString ip ++ "." ++ pad ++ fs

/-- Rendering of a rational as JavaScript renders the corresponding number.
Faithful for integers and finite decimals in the plain-notation range
(between 1e-6 and 1e21), which covers every value the verified claims touch;
the exponent-notation corners and non-decimal denominators fall back to an
an explicit fraction marker and are never reached by the claims. -/
def ratDecimalString (q : ℚ) : String :=
  let sign := if q < 0 then "-" else ""
  let a := |q|
  if a.den = 1 then sign ++ toString a.num.toNat
  else
    match (List.range 40).find? (fun k => (a * 10 ^ (k + 1)).den = 1) with
    | some k => sign ++ decimalStringOf (a * 10 ^ (k + 1)).num.toNat (k + 1)
    | none => sign ++ toString a.num.toNat ++ "/" ++ toString a.den

/-- The member names of `Object.prototype`.  The model carries no general
prototype chain on object property reads (`fieldConditions[field]` reads
are covered by a `protoSafe` hypothesis on universally quantified field
names), but the two object-literal lookups whose behavior the claims
depend on (`opMap[operator]`, see `opMapLookup`, and `params[paramKey]`,
see `paramGet`) do model the chain: a key in this list resolves to the
inherited member, represented by `JSVal.protoFn`. -/
def objectProtoNames : List String :=
  ["constructor", "hasOwnProperty", "isPrototypeOf", "propertyIsEnumerable",
    "toLocaleString", "toString", "valueOf", "__proto__", "__defineGetter__",
    "__defineSetter__", "__lookupGetter__", "__lookupSetter__"]

/-- A field name that does not collide with an `Object.prototype` member. -/
def protoSafe (field : String) : Prop := field ∉ objectProtoNames

instance (field : String) : Decidable (protoSafe field) := by
  unfold protoSafe; infer_instance

/-- The string conversion of the `Object.prototype` member obtained by an
object-literal lookup with a key outside the literal's own properties:
reading `__proto__` goes through its accessor and yields `Object.prototype`
itself (string conversion `[object Object]`); `constructor` yields the
`Object` constructor function; the rest are the native functions of those
names.  Native functions print in the host's (V8's) rendering
`function <name>() { [native code] }`. -/
def protoMemberString (name : String) : String :=
  if name = "__proto__" then "[object Object]"
  else if name = "constructor" then
    "function Object() \x7b [native code] \x7d"
  else "function " ++ name ++ "() \x7b [native code] \x7d"

/-- Rendering of a modelled JavaScript number as `String(n)` does. -/
def jsNumToString : JSNum → String
  | .nan => "NaN"
  | .posInf => "Infinity"
  | .negInf => "-Infinity"
  | .finite q => ratDecimalString q

mutual

/-- Comma-join of array elements for `Array.prototype.toString`. -/
def jsToStringJoin : List JSVal → String
  | [] => ""
  | [x] => jsToStringElem x
  | x :: xs => jsToStringElem x ++ "," ++ jsToStringJoin xs

/-- One array element inside a join: `null`/`undefined` print empty,
everything else prints as `String(v)`. -/
def jsToStringElem : JSVal → String
  | .undefined => ""
  | .null => ""
  | .bool b => if b then "true" else "false"
  | .num n => jsNumToString n
  | .str s => s
  | .obj _ => "[object Object]"
  | .arr xs => jsToStringJoin xs
  | .protoFn name => protoMemberString name

end

/-- Model of JavaScript `String(v)` / `ToPropertyKey`: arrays stringify as
their comma-joined elements (with `null`/`undefined` elements as empty),
plain objects as `[object Object]`. -/
def jsToString : JSVal → String
  | .undefined => "undefined"
  | .null => "null"
  | .bool b => if b then "true" else "false"
  | .num n => jsNumToString n
  | .str s => s
  | .obj _ => "[object Object]"
  | .arr xs => jsToStringJoin xs
  | .protoFn name => protoMemberString name

/-- Model of JavaScript `parseInt(v)` (radix unspecified): stringify, skip
white-space, take an optional sign, then the longest prefix of decimal
digits — or of hex digits after a `0x`/`0X` prefix; NaN when no digit. -/
def jsParseInt (v : JSVal) : JSNum :=
  let l := (jsToString v).data.dropWhile isJsWs
  let (neg, l1) := splitSign l
  let core :=
    match l1 with
    | '0' :: c :: r =>
        if c = 'x' ∨ c = 'X' then
          let ds := r.takeWhile (isRadixDigit 16)
          if ds.isEmpty then none else some (natOfRadixDigits 16 ds)
        else some (natOfDigits (l1.takeWhile Char.isDigit))
    | c :: _ =>
        if c.isDigit then some (natOfDigits (l1.takeWhile Char.isDigit)) else none
    | [] => none
  match core with
  | none => .nan
  | some m => .finite (if neg then -(m : ℚ) else (m : ℚ))

/-- Loose equality `field == 'userId'` (source line 71): strings compare
directly; arrays compare through their string conversion; numbers, booleans,
`null`, `undefined` and plain objects never equal this string. -/
def looseEqUserIdStr : JSVal → Bool
  | .str s => s = "userId"
  | .arr xs => jsToString (.arr xs) = "userId"
  | _ => false

/-- Number of own enumerable keys, as `Object.keys(v).length` sees a value:
objects count their properties, arrays their elements, strings their
characters; numbers and booleans have none.  The compiler only evaluates
this on truthy values, so the `null`/`undefined` cases (which would throw)
are given a dummy value. -/
def jsKeysLen : JSVal → Nat
  | .obj props => props.length
  | .arr xs => xs.length
  | .str s => s.length
  | _ => 0

/-- The value-coercion step of `parseStructuredQuery` (source lines 84-93):
a string passing both the `Number` and `parseFloat` NaN checks becomes its
`Number` value; otherwise the literal strings `true`/`false` become
booleans; all other values pass through unchanged. -/
def processValue : JSVal → JSVal
  | .str s =>
      if ¬ (jsStringToNumber s).isNaN ∧ ¬ jsParseFloatIsNaN s then
        .num (jsStringToNumber s)
      else if s = "true" then .bool true
      else if s = "false" then .bool false
      else .str s
  | v => v

/-- The operator table `opMap` of `parseStructuredQuery` (source lines
49-63), accessed through the property key of the supplied operator. -/
def opMap (op : String) : Option String :=
  if op = "==" then some "$eq"
  else if op = "!=" then some "$ne"
  else if op = ">" then some "$gt"
  else if op = ">=" then some "$gte"
  else if op = "<" then some "$lt"
  else if op = "<=" then some "$lte"
  else if op = "in" then some "$in"
  else if op = "nin" then some "$nin"
  else if op = "array-contains" then some "$eq"
  else if op = "array-contains-any" then some "$in"
  else if op = "exists" then some "$exists"
  else if op = "regex" then some "$regex"
  else if op = "like" then some "$regex"
  else none

/-- The full object-literal lookup `opMap[operator]` (source line 76)
including the prototype chain: an own entry of the table, else — for a key
colliding with an `Object.prototype` member — the inherited member, else
`undefined`.  The source uses `mongooseOp` only for its truthiness (line
100; every table entry and every inherited member is truthy) and as the
computed property key `[mongooseOp]` (its string conversion: the table
string itself, or `protoMemberString` for an inherited member), so the
lookup is modelled by that key string. -/
def opMapLookup (key : String) : Option String :=
  match opMap key with
  | some mop => some mop
  | none =>
      if key ∈ objectProtoNames then some (protoMemberString key) else none

/-- The regex metacharacters escaped by the `like` branch (source line 117):
`. ? * + ^ $ [ ] \ ( ) brace brace |`. -/
def likeMetaChars : List Char :=
  ['.', '?', '*', '+', '^', '$', '[', ']', '\\', '(', ')',
    Char.ofNat 123, Char.ofNat 125, '|']

/-- `processedValue.replace(/([.?*+^$[\]\\(){}|])/g, '\\$1')`: prefix every
metacharacter with a backslash. -/
def escapeLikePattern (s : String) : String :=
  String.mk (s.data.flatMap fun c =>
    if c ∈ likeMetaChars then ['\\', c] else [c])

/-- Property assignment `target[key] = v` as the merge branches use it
(source lines 107, 109, 128, 132): a real update on a plain object; a
silent no-op on truthy primitives (non-strict mode) and on arrays (a
non-index property on an array, which the BSON layer drops). -/
def assignProp (target : JSVal) (key : String) (v : JSVal) : JSVal :=
  match target with
  | .obj props => .obj (JSVal.objSet props key v)
  | t => t

/-- One iteration of the condition loop of `parseStructuredQuery` (source
lines 68-138) over the accumulated `fieldConditions` map: destructure the
condition (a TypeError on `null`/`undefined` entries), force the ownership
value, skip malformed conditions, coerce, then merge by operator. -/
def stepCondition (userId : String) (fc : List (String × JSVal)) (cond : JSVal) :
    Except JSErr (List (String × JSVal)) :=
  if cond.nullish then .error .destructureNullish else
  let field := JSVal.getProp cond "field"
  let operator := JSVal.getProp cond "operator"
  let value0 := JSVal.getProp cond "value"
  let value := if looseEqUserIdStr field then JSVal.str userId else value0
  let mongooseOp := opMapLookup (jsToString operator)
  if ¬ field.truthy ∨ ¬ operator.truthy ∨ value = .undefined then
    .ok fc
  else
    let pv := processValue value
    let key := jsToString field
    let fc :=
      if ¬ (JSVal.objGet fc key).truthy then JSVal.objSet fc key (.obj []) else fc
    match mongooseOp with
    | some mop =>
        if operator = .str "array-contains" then
          .ok (JSVal.objSet fc key pv)
        else if operator = .str "array-contains-any" ∨ operator = .str "in" ∨
            operator = .str "nin" then
          let pv := match pv with
            | .arr xs => JSVal.arr xs
            | v => JSVal.arr [v]
          .ok (JSVal.objSet fc key (assignProp (JSVal.objGet fc key) mop pv))
        else if operator = .str "exists" then
          .ok (JSVal.objSet fc key (assignProp (JSVal.objGet fc key) mop pv))
        else if operator = .str "regex" then
          .ok (JSVal.objSet fc key (.obj [(mop, pv), ("$options", .str "i")]))
        else if operator = .str "like" then
          match pv with
          | .str s =>
              .ok (JSVal.objSet fc key
                (.obj [(mop, .str (".*" ++ escapeLikePattern s ++ ".*")),
                  ("$options", .str "i")]))
          | _ => .error .replaceNonString
        else if operator = .str "==" then
          if jsKeysLen (JSVal.objGet fc key) = 0 then
            .ok (JSVal.objSet fc key pv)
          else
            .ok (JSVal.objSet fc key (assignProp (JSVal.objGet fc key) "$eq" pv))
        else
          .ok (JSVal.objSet fc key (assignProp (JSVal.objGet fc key) mop pv))
    | none => .ok (JSVal.objSet fc key pv)

/-- The condition loop from a given accumulated state: each iteration may
throw (which aborts the whole compilation) or produce the next
`fieldConditions` state. -/
def runConditionsFrom (userId : String) (fc : List (String × JSVal)) :
    List JSVal → Except JSErr (List (String × JSVal))
  | [] => .ok fc
  | c :: rest =>
      match stepCondition userId fc c with
      | .error e => .error e
      | .ok fc2 => runConditionsFrom userId fc2 rest

/-- The whole condition loop, starting from an empty `fieldConditions` map.
The final `Object.entries` copy into `filter` (source lines 141-148)
assigns the same value in both of its branches, so `filter` is the
`fieldConditions` map itself. -/
def runConditions (userId : String) (conds : List JSVal) :
    Except JSErr (List (String × JSVal)) :=
  runConditionsFrom userId [] conds

/-- `for ... of` evaluation: arrays yield their elements, strings their
characters; every other value raises a TypeError. -/
def jsIterate : JSVal → Except JSErr (List JSVal)
  | .arr xs => .ok xs
  | .str s => .ok (s.data.map fun c => JSVal.str (String.mk [c]))
  | _ => .error .notIterable

/-- The compiled sort/skip/limit options (the `options` object of
`parseStructuredQuery`): `sort` is always assigned; `limit` and `skip` are
properties assigned only on the guarded paths. -/
structure QueryOptions where
  sort : JSVal := .undefined
  limit : Option JSNum := none
  skip : Option JSNum := none
deriving DecidableEq, Repr

/-- The destructured value of a query property with its default
(`const {x = d} = q`): the default applies exactly when the property is
`undefined`. -/
def qPropD (q : JSVal) (k : String) (d : JSVal) : JSVal :=
  if JSVal.getProp q k = .undefined then d else JSVal.getProp q k

/-- The options record `parseStructuredQuery` compiles from the destructured
query properties (the tail of the function, source lines 150-158). -/
def queryOptsOf (q : JSVal) : QueryOptions :=
  let orderByField := qPropD q "orderByField" (.str "id")
  let orderDirection := qPropD q "orderDirection" (.str "desc")
  let limitCount := qPropD q "limitCount" .null
  let offsetCount := qPropD q "offsetCount" .null
  let startAfter := qPropD q "startAfter" .null
  let sortObject := qPropD q "sortObject" .null
  { sort :=
      if sortObject = .null then
        JSVal.obj [(jsToString orderByField,
          .num (.finite (if orderDirection = .str "asc" then 1 else -1)))]
      else sortObject
    limit := if limitCount ≠ .null then some (jsParseInt limitCount) else none
    skip :=
      if startAfter ≠ .null ∧ ¬ (jsParseInt startAfter).isNaN then
        some (jsParseInt startAfter)
      else if offsetCount ≠ .null then some (jsParseInt offsetCount)
      else none }

/-- The body of `parseStructuredQuery` after `JSON.parse` succeeded,
operating on the parsed value (source lines 39-160): destructure the query
properties (a TypeError on a `null` parse result), iterate the conditions
(a TypeError on a non-iterable `conditions`), run the condition loop, and
compile the sort/skip/limit options. -/
def parseStructuredQueryVal (q : JSVal) (userId : String) :
    Except JSErr (List (String × JSVal) × QueryOptions) :=
  if q.nullish then .error .destructureNullish else
  match jsIterate (qPropD q "conditions" (.arr [])) with
  | .error e => .error e
  | .ok condList =>
      match runConditions userId condList with
      | .error e => .error e
      | .ok filter => .ok (filter, queryOptsOf q)

/-- `parseStructuredQuery(jsonQueryString, userId)` (source lines 27-161).
The string argument is modelled by its `JSON.parse` outcome: `none` when the
text is not valid JSON (the parse failure is rethrown as the
`Invalid query JSON format` error), `some j` when it parses to `j`. -/
def parseStructuredQuery (jsonQuery : Option Json) (userId : String) :
    Except JSErr (List (String × JSVal) × QueryOptions) :=
  match jsonQuery with
  | none => .error .invalidQueryJson
  | some pq => parseStructuredQueryVal pq.toVal userId

/-- A `$match` pipeline stage over a compiled filter. -/
def matchStage (filter : List (String × JSVal)) : JSVal :=
  .obj [("$match", .obj filter)]

/-- The four balance-calculation stages of `buildTransactionsPipeline`
(source lines 177-206): cents conversion, per-account running sum over an
unbounded-preceding-to-current window ordered by `(date, id)`, conversion
back to a decimal balance, and projection of the intermediate cents
fields. -/
def balanceCalculationStages : List JSVal :=
  [ .obj [("$addFields", .obj [("amountCents",
      .obj [("$round", .arr
        [.obj [("$multiply", .arr [.str "$amount", .num (.finite 100)])],
          .num (.finite 0)])])])],
    .obj [("$setWindowFields", .obj
      [ ("partitionBy", .str "$accountId"),
        ("sortBy", .obj [("date", .num (.finite 1)), ("id", .num (.finite 1))]),
        ("output", .obj [("balanceCents", .obj
          [ ("$sum", .str "$amountCents"),
            ("window", .obj [("documents",
              .arr [.str "unbounded", .str "current"])])])])])],
    .obj [("$addFields", .obj [("balance",
      .obj [("$divide", .arr [.str "$balanceCents", .num (.finite 100)])])])],
    .obj [("$project", .obj
      [("amountCents", .num (.finite 0)), ("balanceCents", .num (.finite 0))])] ]

/-- `buildTransactionsPipeline(userId, userFilter, queryParams)` (source
lines 164-214); the `queryParams` argument is unused by the source function
and is omitted.  The initial balance-scope match contains the user and, when
`userFilter.accountId` is truthy, the filter's `accountId` entry; then the
balance stages; then a match with the full user filter. -/
def buildTransactionsPipeline (userId : String)
    (userFilter : List (String × JSVal)) : List JSVal :=
  let initialMatchForBalance := [("userId", JSVal.str userId)]
  let initialMatchForBalance :=
    if (JSVal.objGet userFilter "accountId").truthy then
      JSVal.objSet initialMatchForBalance "accountId"
        (JSVal.objGet userFilter "accountId")
    else initialMatchForBalance
  [JSVal.obj [("$match", .obj initialMatchForBalance)]] ++
    balanceCalculationStages ++ [matchStage userFilter]

/-- The ownership finalisation of the list route (source lines 237-243):
for every collection except `users`, `filter.userId ??= req.user.uid`
(assigning exactly when the current entry is `undefined` or `null`); for
`users`, `filter.id = req.user.uid` unconditionally. -/
def finalizeFilter (collectionName userId : String)
    (filter : List (String × JSVal)) : List (String × JSVal) :=
  if collectionName ≠ "users" then
    if JSVal.objGet filter "userId" = .undefined ∨ JSVal.objGet filter "userId" = .null
    then JSVal.objSet filter "userId" (.str userId)
    else filter
  else JSVal.objSet filter "id" (.str userId)

/-- The common sort/skip/limit stages appended by the list route (source
lines 254-271): each stage is appended only when the corresponding option
value is truthy. -/
def commonStages (options : QueryOptions) : List JSVal :=
  (if options.sort.truthy then [JSVal.obj [("$sort", options.sort)]] else []) ++
    (match options.skip with
      | some n => if (JSVal.num n).truthy then [JSVal.obj [("$skip", .num n)]] else []
      | none => []) ++
    (match options.limit with
      | some n => if (JSVal.num n).truthy then [JSVal.obj [("$limit", .num n)]] else []
      | none => [])

/-- The execution plan a list request hands to the document store: the
aggregation pipeline and the filter used for the independent
`countDocuments` call. -/
structure ListPlan where
  pipeline : List JSVal
  countFilter : List (String × JSVal)
deriving DecidableEq, Repr

/-- The list route `GET /:collectionName` (source lines 218-289) up to the
two store calls: parse the optional `query` parameter (`none` means the
parameter is absent or not a string; `some none` means present but invalid
JSON), finalise ownership, build the per-collection pipeline and append the
common stages.  A thrown error is answered with status 400. -/
def listQueryPlan (collectionName userId : String)
    (queryParam : Option (Option Json)) : Except JSErr ListPlan := do
  let parsed ← match queryParam with
    | none => pure (([] : List (String × JSVal)), ({} : QueryOptions))
    | some q => parseStructuredQuery q userId
  let filter := finalizeFilter collectionName userId parsed.1
  let pipeline :=
    if collectionName = "transactions" then
      buildTransactionsPipeline userId filter
    else [matchStage filter]
  pure { pipeline := pipeline ++ commonStages parsed.2, countFilter := filter }

/-! The named-query router (`replaceParametersInPipeline` and the
registration handler). -/

/-- An opening brace character, and a closing one. -/
def lbraceChar : Char := Char.ofNat 123

/-- A closing brace character. -/
def rbraceChar : Char := Char.ofNat 125

/-- The placeholder test of `replaceInObject` (source lines 192-193 of the
queries router): `startsWith` and `endsWith` on the two-brace markers,
modelled on the character list, with `slice(2, -2)` as the extracted
parameter key. -/
def placeholderKey (s : String) : Option String :=
  if [lbraceChar, lbraceChar].isPrefixOf s.data ∧
      [rbraceChar, rbraceChar].isSuffixOf s.data then
    some (String.mk ((s.data.drop 2).take (s.data.length - 4)))
  else none

/-- The params lookup `params[paramKey]` (source line 194 of the queries
router) including the prototype chain: an own property (even one whose
value is `undefined`, which shadows the chain), else — for a key colliding
with an `Object.prototype` member — the inherited member (which is not
`undefined`, so it gets substituted), else `undefined`. -/
def paramGet (params : List (String × JSVal)) (key : String) : JSVal :=
  match params.find? (fun kv => kv.1 = key) with
  | some kv => kv.2
  | none => if key ∈ objectProtoNames then JSVal.protoFn key else .undefined

mutual

/-- Child transformation of the `replaceInObject` walk: a string that
passes the placeholder test and has a param that is not `undefined` is
replaced by that param's value; an object or array is recursed into;
everything else is kept. -/
def replaceInChild (params : List (String × JSVal)) : JSVal → JSVal
  | .str s =>
      match placeholderKey s with
      | some k =>
          match paramGet params k with
          | .undefined => .str s
          | pv => pv
      | none => .str s
  | .obj props => .obj (replaceInProps params props)
  | .arr xs => .arr (replaceInElems params xs)
  | v => v

/-- The walk over an object's property list. -/
def replaceInProps (params : List (String × JSVal)) :
    List (String × JSVal) → List (String × JSVal)
  | [] => []
  | (k, v) :: rest => (k, replaceInChild params v) :: replaceInProps params rest

/-- The walk over an array's elements. -/
def replaceInElems (params : List (String × JSVal)) : List JSVal → List JSVal
  | [] => []
  | v :: rest => replaceInChild params v :: replaceInElems params rest

end

/-- `replaceInObject` of `replaceParametersInPipeline` (source lines
190-201): walk the own properties of an object (or the elements of an
array) and transform each child value; `for ... in` over any other value
changes nothing. -/
def replaceInObject (params : List (String × JSVal)) : JSVal → JSVal
  | .obj props => .obj (replaceInProps params props)
  | .arr xs => .arr (replaceInElems params xs)
  | v => v

/-- `replaceParametersInPipeline(pipeline, params)` (source lines 189-206):
deep-copy the pipeline (the identity on these pure values) and apply
`replaceInObject` to every stage.  A stage that is itself a string is passed
to `replaceInObject`, which leaves every non-object untouched. -/
def replaceParametersInPipeline (pipeline : List JSVal)
    (params : List (String × JSVal)) : List JSVal :=
  pipeline.map (replaceInObject params)

/-- The literal placeholder text for a parameter name. -/
def placeholderOf (k : String) : String :=
  String.mk ([lbraceChar, lbraceChar] ++ k.data ++ [rbraceChar, rbraceChar])

/-- Substitution as the specification words it, for the refinement claim
about parameter substitution: every leaf string that is exactly one
placeholder token whose identifier has a matching (defined) param is
replaced in place by that param's value, type preserved; placeholder leaves
without a matching param and all other leaves are left unchanged; objects
and arrays are walked recursively. -/
def specSubstLeaf (params : List (String × JSVal)) (s : String) : JSVal :=
  match params.find? (fun kv => kv.2 ≠ .undefined ∧ s = placeholderOf kv.1) with
  | some kv => kv.2
  | none => .str s

mutual

/-- The specification-side recursive walk (see `specSubstLeaf`). -/
def specSubstVal (params : List (String × JSVal)) : JSVal → JSVal
  | .str s => specSubstLeaf params s
  | .obj props => .obj (specSubstProps params props)
  | .arr xs => .arr (specSubstElems params xs)
  | v => v

/-- Specification-side walk over object properties. -/
def specSubstProps (params : List (String × JSVal)) :
    List (String × JSVal) → List (String × JSVal)
  | [] => []
  | (k, v) :: rest => (k, specSubstVal params v) :: specSubstProps params rest

/-- Specification-side walk over array elements. -/
def specSubstElems (params : List (String × JSVal)) : List JSVal → List JSVal
  | [] => []
  | v :: rest => specSubstVal params v :: specSubstElems params rest

end

mutual

/-- Guard for the substitution refinement: no placeholder identifier inside
the value both lacks an own entry in `params` and collides with an
`Object.prototype` member name.  A colliding identifier without an own
entry makes `params[paramKey]` resolve to the inherited member (which is
not `undefined`), so the source walk substitutes it where the
specification's wording keeps the literal text. -/
def placeholdersProtoSafe (params : List (String × JSVal)) : JSVal → Bool
  | .str s =>
      match placeholderKey s with
      | some k =>
          (params.find? (fun kv => kv.1 = k)).isSome ||
            decide (k ∉ objectProtoNames)
      | none => true
  | .obj props => placeholdersProtoSafeProps params props
  | .arr xs => placeholdersProtoSafeElems params xs
  | _ => true

/-- `placeholdersProtoSafe` over an object's property list. -/
def placeholdersProtoSafeProps (params : List (String × JSVal)) :
    List (String × JSVal) → Bool
  | [] => true
  | (_, v) :: rest =>
      placeholdersProtoSafe params v && placeholdersProtoSafeProps params rest

/-- `placeholdersProtoSafe` over an array's elements. -/
def placeholdersProtoSafeElems (params : List (String × JSVal)) :
    List JSVal → Bool
  | [] => true
  | v :: rest =>
      placeholdersProtoSafe params v && placeholdersProtoSafeElems params rest

end

/-- A stored named query (`database_queries` record): the mutable fields
set by the registration handler, plus the two timestamps.  Timestamps are
modelled as abstract instants (`new Date()` at registration time is passed
in by the caller of the model). -/
structure NamedQuery where
  name : JSVal
  pipeline : JSVal
  description : JSVal
  collectionName : JSVal
  createdAt : Nat
  updatedAt : Nat
deriving DecidableEq, Repr

/-- Outcome of the registration handler `POST /` of the queries router:
status 400 on missing name/pipeline/collectionName, status 200 with the
updated store on an existing name, status 201 with the extended store on a
fresh name.  The returned document is carried alongside the new store. -/
inductive RegisterResult where
  | badRequest
  | updated (store : List NamedQuery) (doc : NamedQuery)
  | created (store : List NamedQuery) (doc : NamedQuery)
deriving DecidableEq, Repr

/-- The overwrite `existingQuery.set({pipeline, description, collectionName,
updatedAt}).save()` applied to a stored record. -/
def overwriteQuery (q : NamedQuery) (pipeline description collectionName : JSVal)
    (now : Nat) : NamedQuery :=
  { q with
    pipeline := pipeline
    description := description
    collectionName := collectionName
    updatedAt := now }

/-- Replace the first record with the given name (the one `findOne`
returned and `save` wrote back). -/
def saveFirst (store : List NamedQuery) (name : JSVal)
    (f : NamedQuery → NamedQuery) : List NamedQuery :=
  match store with
  | [] => []
  | q :: rest =>
      if q.name = name then f q :: rest else q :: saveFirst rest name f

/-- The registration handler `POST /` of the queries router (source lines
18-59 of that file): validate, then upsert by name — full overwrite of
pipeline, description and collectionName plus an `updatedAt` refresh when
the name exists, creation with both timestamps set to now otherwise. -/
def registerQuery (store : List NamedQuery)
    (name pipeline description collectionName : JSVal) (now : Nat) :
    RegisterResult :=
  if ¬ name.truthy ∨ ¬ pipeline.truthy ∨ ¬ collectionName.truthy then
    .badRequest
  else
    match store.find? (fun q => q.name = name) with
    | some q =>
        .updated (saveFirst store name
            (fun r => overwriteQuery r pipeline description collectionName now))
          (overwriteQuery q pipeline description collectionName now)
    | none =>
        let doc : NamedQuery :=
          { name := name
            pipeline := pipeline
            description := description
            collectionName := collectionName
            createdAt := now
            updatedAt := now }
        .created (store ++ [doc]) doc

/-! Shared helper lemmas. -/

theorem saveFirst_length (store : List NamedQuery) (name : JSVal)
    (f : NamedQuery → NamedQuery) :
    (saveFirst store name f).length = store.length := by
  induction store with
  | nil => rfl
  | cons q rest ih =>
      simp only [saveFirst]
      by_cases h : q.name = name <;> simp [h, ih]

theorem skip_stage_mem (o : QueryOptions) (v : JSVal) :
    JSVal.obj [("$skip", v)] ∈ commonStages o ↔
      ∃ n, o.skip = some n ∧ (JSVal.num n).truthy = true ∧ v = .num n := by
  rcases o with ⟨sort, limit, skip⟩
  simp only [commonStages, List.mem_append]
  constructor
  · rintro ((h | h) | h)
    · by_cases hs : sort.truthy = true <;> simp [hs] at h
    · cases skip with
      | none => simp at h
      | some n =>
          by_cases hn : (JSVal.num n).truthy = true <;> simp [hn] at h
          exact ⟨n, rfl, hn, h⟩
    · cases limit with
      | none => simp at h
      | some n =>
          by_cases hn : (JSVal.num n).truthy = true <;> simp [hn] at h
  · rintro ⟨n, hn, ht, rfl⟩
    subst hn
    simp [ht]

theorem limit_stage_mem (o : QueryOptions) (v : JSVal) :
    JSVal.obj [("$limit", v)] ∈ commonStages o ↔
      ∃ n, o.limit = some n ∧ (JSVal.num n).truthy = true ∧ v = .num n := by
  rcases o with ⟨sort, limit, skip⟩
  simp only [commonStages, List.mem_append]
  constructor
  · rintro ((h | h) | h)
    · by_cases hs : sort.truthy = true <;> simp [hs] at h
    · cases skip with
      | none => simp at h
      | some n =>
          by_cases hn : (JSVal.num n).truthy = true <;> simp [hn] at h
    · cases limit with
      | none => simp at h
      | some n =>
          by_cases hn : (JSVal.num n).truthy = true <;> simp [hn] at h
          exact ⟨n, rfl, hn, h⟩
  · rintro ⟨n, hn, ht, rfl⟩
    subst hn
    simp [ht]

/-- C7: for every compiled options record, the assembled pipeline gets a
`$skip` stage only when the skip option is present and non-zero, and a
`$limit` stage only when the limit option is present and non-zero; an
absent option and a zero option both leave the stage out. -/
theorem c7_skip_limit_stage_guards (o : QueryOptions) :
    ((∃ v, JSVal.obj [("$skip", v)] ∈ commonStages o) →
      ∃ n, o.skip = some n ∧ n ≠ JSNum.finite 0) ∧
    ((∃ v, JSVal.obj [("$limit", v)] ∈ commonStages o) →
      ∃ n, o.limit = some n ∧ n ≠ JSNum.finite 0) ∧
    (o.skip = none → ∀ v, JSVal.obj [("$skip", v)] ∉ commonStages o) ∧
    (o.skip = some (JSNum.finite 0) → ∀ v, JSVal.obj [("$skip", v)] ∉ commonStages o) ∧
    (o.limit = none → ∀ v, JSVal.obj [("$limit", v)] ∉ commonStages o) ∧
    (o.limit = some (JSNum.finite 0) → ∀ v, JSVal.obj [("$limit", v)] ∉ commonStages o) := by
  refine ⟨?_, ?_, ?_, ?_, ?_, ?_⟩
  · rintro ⟨v, hv⟩
    obtain ⟨n, hn, ht, rfl⟩ := (skip_stage_mem o v).1 hv
    refine ⟨n, hn, ?_⟩
    rintro rfl
    simp [JSVal.truthy] at ht
  · rintro ⟨v, hv⟩
    obtain ⟨n, hn, ht, rfl⟩ := (limit_stage_mem o v).1 hv
    refine ⟨n, hn, ?_⟩
    rintro rfl
    simp [JSVal.truthy] at ht
  · intro h v hv
    obtain ⟨n, hn, ht, rfl⟩ := (skip_stage_mem o v).1 hv
    rw [h] at hn
    exact Option.noConfusion hn
  · intro h v hv
    obtain ⟨n, hn, ht, rfl⟩ := (skip_stage_mem o v).1 hv
    rw [h] at hn
    obtain rfl : JSNum.finite 0 = n := Option.some.inj hn
    simp [JSVal.truthy] at ht
  · intro h v hv
    obtain ⟨n, hn, ht, rfl⟩ := (limit_stage_mem o v).1 hv
    rw [h] at hn
    exact Option.noConfusion hn
  · intro h v hv
    obtain ⟨n, hn, ht, rfl⟩ := (limit_stage_mem o v).1 hv
    rw [h] at hn
    obtain rfl : JSNum.finite 0 = n := Option.some.inj hn
    simp [JSVal.truthy] at ht

/-- Witness for C7 at the concrete options record with skip 5 and limit 0:
the skip stage present forces a non-zero skip option, and the zero limit
omits the limit stage. -/
theorem c7_skip_limit_stage_guards_witness :
    (∃ n, (QueryOptions.mk .undefined (some (.finite 0)) (some (.finite 5))).skip =
      some n ∧ n ≠ JSNum.finite 0) ∧
    (∀ v, JSVal.obj [("$limit", v)] ∉
      commonStages (QueryOptions.mk .undefined (some (.finite 0)) (some (.finite 5)))) :=
  ⟨(c7_skip_limit_stage_guards (QueryOptions.mk .undefined (some (.finite 0))
      (some (.finite 5)))).1 ⟨.num (.finite 5), by decide⟩,
    (c7_skip_limit_stage_guards (QueryOptions.mk .undefined (some (.finite 0))
      (some (.finite 5)))).2.2.2.2.2 rfl⟩

/-- C8: registering a named query under an existing name performs a full
overwrite of the mutable fields (pipeline, description, collectionName)
plus an `updatedAt` refresh on the stored record, keeps the store size
(no second record), keeps `createdAt` and `name`; with identical content
only `updatedAt` changes. -/
theorem c8_register_overwrite (store : List NamedQuery) (r : NamedQuery)
    (p d c : JSVal) (t : Nat)
    (hfind : store.find? (fun q => q.name = r.name) = some r)
    (hname : r.name.truthy = true) (hp : p.truthy = true) (hc : c.truthy = true) :
    registerQuery store r.name p d c t =
      .updated (saveFirst store r.name (fun q => overwriteQuery q p d c t))
        (overwriteQuery r p d c t) ∧
    (saveFirst store r.name (fun q => overwriteQuery q p d c t)).length =
      store.length ∧
    (overwriteQuery r p d c t).createdAt = r.createdAt ∧
    (overwriteQuery r p d c t).name = r.name ∧
    (overwriteQuery r p d c t).updatedAt = t ∧
    (p = r.pipeline → d = r.description → c = r.collectionName →
      overwriteQuery r p d c t = { r with updatedAt := t }) := by
  refine ⟨?_, saveFirst_length store r.name _, rfl, rfl, rfl, ?_⟩
  · simp [registerQuery, hname, hp, hc, hfind]
  · rintro rfl rfl rfl
    rfl

/-- Witness for C8: re-registering a concrete stored query with identical
content at a later instant leaves everything but `updatedAt` unchanged. -/
theorem c8_register_overwrite_witness :
    registerQuery [NamedQuery.mk (.str "q1") (.arr [.str "stage"]) .undefined
        (.str "col") 1 1]
      (.str "q1") (.arr [.str "stage"]) .undefined (.str "col") 5 =
    .updated [NamedQuery.mk (.str "q1") (.arr [.str "stage"]) .undefined
        (.str "col") 1 5]
      (NamedQuery.mk (.str "q1") (.arr [.str "stage"]) .undefined (.str "col") 1 5) :=
  ((c8_register_overwrite
    [NamedQuery.mk (.str "q1") (.arr [.str "stage"]) .undefined (.str "col") 1 1]
    (NamedQuery.mk (.str "q1") (.arr [.str "stage"]) .undefined (.str "col") 1 1)
    (.arr [.str "stage"]) .undefined (.str "col") 5
    (by decide) (by decide) (by decide) (by decide)).1).trans (by decide)

/-- The concrete list query refuting C1 as stated: a filter on
`accountId == 0`. -/
def accountZeroQuery : Json :=
  Json.obj [("conditions", Json.arr
    [Json.obj [("field", Json.str "accountId"), ("operator", Json.str "=="),
      ("value", Json.num 0)]])]

/-- Counterexample to C1 as stated: for the transactions list query whose
compiled filter constrains `accountId` to the (falsy) value `0`, the
scope-restriction match of the assembled pipeline contains only the user
and not the accountId constraint, because the source copies `accountId`
into the balance scope only when the filter entry is truthy. -/
theorem c1_counterexample :
    (listQueryPlan "transactions" "u1" (some (some accountZeroQuery))).map
      (fun p => (JSVal.objGet p.countFilter "accountId", p.pipeline.head?)) =
    .ok (.num (.finite 0), some (matchStage [("userId", .str "u1")])) := by
  decide

/-- Counterexample to C3 as stated: for the field `userId`, compiling the
two conditions `userId > "25"` and `userId < "50"` (as user `u1`) yields a
predicate whose bounds are both the forced caller identity `"u1"`, not the
numbers 25 and 50, because the reserved ownership field has its condition
values replaced before compilation. -/
theorem c3_counterexample :
    (parseStructuredQueryVal (.obj [("conditions", .arr
        [.obj [("field", .str "userId"), ("operator", .str ">"),
          ("value", .str "25")],
         .obj [("field", .str "userId"), ("operator", .str "<"),
          ("value", .str "50")]])]) "u1").map Prod.fst =
      .ok [("userId", .obj [("$gt", .str "u1"), ("$lt", .str "u1")])] ∧
    JSVal.obj [("$gt", .str "u1"), ("$lt", .str "u1")] ≠
      .obj [("$gt", .num (.finite 25)), ("$lt", .num (.finite 50))] := by
  constructor
  · decide
  · decide

/-- Counterexample to C4 as stated: the string `"Infinity"` does not parse
as a finite number and is not `"true"`/`"false"`, yet coercion does not
leave it unchanged — it becomes the number Infinity, because the source
only checks the two NaN conditions, which Infinity passes. -/
theorem c4_counterexample :
    processValue (.str "Infinity") = .num .posInf ∧
    jsStringToNumber "Infinity" = .posInf ∧
    JSVal.num .posInf ≠ .str "Infinity" := by
  refine ⟨by decide, by decide, by decide⟩

theorem objGet_objSet_self (props : List (String × JSVal)) (k : String) (v : JSVal) :
    JSVal.objGet (JSVal.objSet props k v) k = v := by
  induction props with
  | nil => simp [JSVal.objSet, JSVal.objGet]
  | cons p rest ih =>
      rcases p with ⟨k2, w⟩
      by_cases h : k2 = k <;> simp [JSVal.objSet, JSVal.objGet, h, ih]

/-- C10: every list-query filter handed to the store is ownership-scoped:
for every collection other than `users`, a compiled filter with no `userId`
entry gets one equal to the caller's uid before the pipeline and the count
filter are built; for `users` the filter's `id` entry is always the
caller's uid.  The pipeline's full-filter match and the count filter use
the same finalised filter. -/
theorem c10_ownership_scope (collectionName uid : String) (q : Json)
    (f : List (String × JSVal)) (o : QueryOptions)
    (hparse : parseStructuredQuery (some q) uid = .ok (f, o)) :
    ∃ plan, listQueryPlan collectionName uid (some (some q)) = .ok plan ∧
      plan.countFilter = finalizeFilter collectionName uid f ∧
      (collectionName ≠ "users" → JSVal.objGet f "userId" = .undefined →
        JSVal.objGet plan.countFilter "userId" = .str uid) ∧
      (collectionName = "users" →
        JSVal.objGet plan.countFilter "id" = .str uid) ∧
      (collectionName ≠ "transactions" →
        plan.pipeline.head? = some (matchStage plan.countFilter)) ∧
      (collectionName = "transactions" →
        plan.pipeline.get? 5 = some (matchStage plan.countFilter)) := by
  refine ⟨ListPlan.mk
    ((if collectionName = "transactions" then
        buildTransactionsPipeline uid (finalizeFilter collectionName uid f)
      else [matchStage (finalizeFilter collectionName uid f)]) ++ commonStages o)
    (finalizeFilter collectionName uid f), ?_, rfl, ?_, ?_, ?_, ?_⟩
  · simp [listQueryPlan, hparse]
  · intro hne hu
    simp only [finalizeFilter, if_pos hne, hu]
    simp [objGet_objSet_self]
  · intro he
    simp only [finalizeFilter, he]
    simp [objGet_objSet_self]
  · intro hne
    simp [if_neg hne]
  · intro he
    subst he
    rw [if_pos rfl]
    simp only [buildTransactionsPipeline, balanceCalculationStages]
    split <;> rfl

/-- Witness for C10 at the collection `posts`, caller `u1` and an empty
query object (whose compiled filter has no userId entry). -/
theorem c10_ownership_scope_witness :
    ∃ plan, listQueryPlan "posts" "u1" (some (some (Json.obj []))) = .ok plan ∧
      plan.countFilter = finalizeFilter "posts" "u1" [] ∧
      ("posts" ≠ "users" → JSVal.objGet [] "userId" = .undefined →
        JSVal.objGet plan.countFilter "userId" = .str "u1") ∧
      ("posts" = "users" → JSVal.objGet plan.countFilter "id" = .str "u1") ∧
      ("posts" ≠ "transactions" →
        plan.pipeline.head? = some (matchStage plan.countFilter)) ∧
      ("posts" = "transactions" →
        plan.pipeline.get? 5 = some (matchStage plan.countFilter)) :=
  c10_ownership_scope "posts" "u1" (Json.obj []) []
    (QueryOptions.mk (.obj [("id", .num (.finite (-1)))]) none none) (by decide)

theorem objSet_append_new (k1 k2 : String) (v1 v2 : JSVal) (h : k1 ≠ k2) :
    JSVal.objSet [(k1, v1)] k2 v2 = [(k1, v1), (k2, v2)] := by
  simp [JSVal.objSet, h]

/-- C1 (amended): for every transactions list query, the assembled pipeline
is, in order: the scope-restriction match on the user — extended with the
filter's `accountId` entry exactly when that entry is truthy (a falsy
entry such as `0` or `""` is not copied, see `c1_counterexample`) — then
the cents conversion, the windowed running sum, the balance reconstruction
with the cents fields projected out, then and only then the match with the
full finalised filter, followed by the sort/skip/limit stages. -/
theorem c1_pipeline_order (uid : String) (q : Json)
    (f : List (String × JSVal)) (o : QueryOptions)
    (hparse : parseStructuredQuery (some q) uid = .ok (f, o)) :
    ∃ plan, listQueryPlan "transactions" uid (some (some q)) = .ok plan ∧
      plan.countFilter = finalizeFilter "transactions" uid f ∧
      plan.pipeline =
        JSVal.obj [("$match", .obj
          (if (JSVal.objGet plan.countFilter "accountId").truthy then
            [("userId", .str uid),
              ("accountId", JSVal.objGet plan.countFilter "accountId")]
          else [("userId", .str uid)]))] ::
        (balanceCalculationStages ++
          (matchStage plan.countFilter :: commonStages o)) := by
  refine ⟨ListPlan.mk
    (buildTransactionsPipeline uid (finalizeFilter "transactions" uid f) ++
      commonStages o)
    (finalizeFilter "transactions" uid f), ?_, rfl, ?_⟩
  · simp [listQueryPlan, hparse]
  · simp only [buildTransactionsPipeline]
    split
    · rw [objSet_append_new "userId" "accountId" _ _ (by decide)]
      simp
    · simp

/-- Witness for C1 (amended) at a concrete transactions query filtering on
`accountId == "a1"` with a limit of 10. -/
theorem c1_pipeline_order_witness :
    ∃ plan, listQueryPlan "transactions" "u1" (some (some (Json.obj
        [("conditions", Json.arr [Json.obj
          [("field", Json.str "accountId"), ("operator", Json.str "=="),
            ("value", Json.str "a1")]]),
          ("limitCount", Json.num 10)]))) = .ok plan ∧
      plan.countFilter =
        finalizeFilter "transactions" "u1" [("accountId", .str "a1")] ∧
      plan.pipeline =
        JSVal.obj [("$match", .obj
          (if (JSVal.objGet plan.countFilter "accountId").truthy then
            [("userId", .str "u1"),
              ("accountId", JSVal.objGet plan.countFilter "accountId")]
          else [("userId", .str "u1")]))] ::
        (balanceCalculationStages ++
          (matchStage plan.countFilter ::
            commonStages (QueryOptions.mk (.obj [("id", .num (.finite (-1)))])
              (some (.finite 10)) none))) :=
  c1_pipeline_order "u1"
    (Json.obj [("conditions", Json.arr [Json.obj
      [("field", Json.str "accountId"), ("operator", Json.str "=="),
        ("value", Json.str "a1")]]), ("limitCount", Json.num 10)])
    [("accountId", .str "a1")]
    (QueryOptions.mk (.obj [("id", .num (.finite (-1)))]) (some (.finite 10)) none)
    (by decide)


/-- C3 (amended): for every field other than the reserved ownership name
`userId` (and other than the empty string, which the malformed-condition
check skips, and not colliding with an `Object.prototype` member name),
compiling the conditions `f > "25"` and `f < "50"` yields a single
predicate object for `f` holding both bounds as the numbers 25 and 50; the
second operator accumulates instead of discarding the first.  For `userId`
itself both bounds are replaced by the caller identity
(see `c3_counterexample`). -/
theorem c3_range_merge (f uid : String) (hf : f ≠ "userId") (hne : f ≠ "")
    (_hps : protoSafe f) :
    (parseStructuredQueryVal (.obj [("conditions", .arr
        [.obj [("field", .str f), ("operator", .str ">"), ("value", .str "25")],
         .obj [("field", .str f), ("operator", .str "<"), ("value", .str "50")]])])
        uid).map Prod.fst =
      .ok [(f, .obj [("$gt", .num (.finite 25)), ("$lt", .num (.finite 50))])] := by
  have h25 : processValue (.str "25") = .num (.finite 25) := by decide
  have h50 : processValue (.str "50") = .num (.finite 50) := by decide
  have hstep1 : stepCondition uid [] (.obj [("field", .str f),
      ("operator", .str ">"), ("value", .str "25")]) =
      .ok [(f, .obj [("$gt", .num (.finite 25))])] := by
    simp only [stepCondition, JSVal.nullish, JSVal.getProp, JSVal.objGet,
      looseEqUserIdStr, JSVal.truthy, jsToString, opMapLookup, opMap, h25]
    simp [hf, hne, h25, JSVal.objSet, assignProp, JSVal.objGet]
  have hstep2 : stepCondition uid [(f, .obj [("$gt", .num (.finite 25))])]
      (.obj [("field", .str f), ("operator", .str "<"), ("value", .str "50")]) =
      .ok [(f, .obj [("$gt", .num (.finite 25)), ("$lt", .num (.finite 50))])] := by
    simp only [stepCondition, JSVal.nullish, JSVal.getProp, JSVal.objGet,
      looseEqUserIdStr, JSVal.truthy, jsToString, opMapLookup, opMap, h50]
    simp [hf, hne, h50, JSVal.objSet, assignProp, JSVal.objGet]
  simp [parseStructuredQueryVal, qPropD, JSVal.getProp, JSVal.objGet,
    jsIterate, JSVal.nullish, runConditions, runConditionsFrom, hstep1, hstep2,
    Except.map]

/-- Witness for C3 (amended) at the concrete field `age` and caller `u1`. -/
theorem c3_range_merge_witness :
    (parseStructuredQueryVal (.obj [("conditions", .arr
        [.obj [("field", .str "age"), ("operator", .str ">"),
          ("value", .str "25")],
         .obj [("field", .str "age"), ("operator", .str "<"),
          ("value", .str "50")]])]) "u1").map Prod.fst =
      .ok [("age", .obj [("$gt", .num (.finite 25)), ("$lt", .num (.finite 50))])] :=
  c3_range_merge "age" "u1" (by decide) (by decide) (by decide)

/-- C6: if `sortObject` is present (not null), the compiled sort option is
exactly `sortObject`, regardless of `orderByField`/`orderDirection`; and if
`startAfter` is present and parses to a valid integer, the compiled skip
option is the parsed `startAfter`, regardless of `offsetCount`. -/
theorem c6_sort_skip_precedence (uid : String) (q : JSVal)
    (f : List (String × JSVal)) (o : QueryOptions)
    (hparse : parseStructuredQueryVal q uid = .ok (f, o)) :
    (qPropD q "sortObject" .null ≠ .null → o.sort = qPropD q "sortObject" .null) ∧
    (qPropD q "startAfter" .null ≠ .null →
      (jsParseInt (qPropD q "startAfter" .null)).isNaN = false →
      o.skip = some (jsParseInt (qPropD q "startAfter" .null))) := by
  have ho : o = queryOptsOf q := by
    by_cases hn : q.nullish = true
    · simp [parseStructuredQueryVal, hn] at hparse
    · simp only [parseStructuredQueryVal, hn, Bool.false_eq_true,
        if_false] at hparse
      cases hI : jsIterate (qPropD q "conditions" (.arr [])) with
      | error e => rw [hI] at hparse; exact absurd hparse (by simp)
      | ok l =>
          rw [hI] at hparse
          dsimp only at hparse
          cases hR : runConditions uid l with
          | error e => rw [hR] at hparse; exact absurd hparse (by simp)
          | ok filt =>
              rw [hR] at hparse
              dsimp only at hparse
              have h2 := Except.ok.inj hparse
              exact (Prod.mk.injEq _ _ _ _ ▸ h2 : _ ∧ _).2.symm
  subst ho
  constructor
  · intro h
    simp only [queryOptsOf]
    rw [if_neg h]
  · intro h hnan
    simp only [queryOptsOf]
    rw [if_pos ⟨h, by simp [hnan]⟩]

/-- Witness for C6: a query carrying an explicit `sortObject`, `startAfter`
5 and `offsetCount` 2 compiles to that sort object and an effective skip of
5 (the `offsetCount` is ignored). -/
theorem c6_sort_skip_precedence_witness :
    (qPropD (.obj [("sortObject", .obj [("x", .num (.finite 1))]),
        ("startAfter", .num (.finite 5)), ("offsetCount", .num (.finite 2))])
        "sortObject" .null ≠ .null →
      (QueryOptions.mk (.obj [("x", .num (.finite 1))]) none
          (some (.finite 5))).sort =
        qPropD (.obj [("sortObject", .obj [("x", .num (.finite 1))]),
          ("startAfter", .num (.finite 5)), ("offsetCount", .num (.finite 2))])
          "sortObject" .null) ∧
    (qPropD (.obj [("sortObject", .obj [("x", .num (.finite 1))]),
        ("startAfter", .num (.finite 5)), ("offsetCount", .num (.finite 2))])
        "startAfter" .null ≠ .null →
      (jsParseInt (qPropD (.obj [("sortObject", .obj [("x", .num (.finite 1))]),
        ("startAfter", .num (.finite 5)), ("offsetCount", .num (.finite 2))])
        "startAfter" .null)).isNaN = false →
      (QueryOptions.mk (.obj [("x", .num (.finite 1))]) none
          (some (.finite 5))).skip =
        some (jsParseInt (qPropD (.obj
          [("sortObject", .obj [("x", .num (.finite 1))]),
            ("startAfter", .num (.finite 5)),
            ("offsetCount", .num (.finite 2))]) "startAfter" .null))) :=
  c6_sort_skip_precedence "u1"
    (.obj [("sortObject", .obj [("x", .num (.finite 1))]),
      ("startAfter", .num (.finite 5)), ("offsetCount", .num (.finite 2))])
    [] (QueryOptions.mk (.obj [("x", .num (.finite 1))]) none (some (.finite 5)))
    (by decide)

/-- Two conditions that are either equal, or are both objects on the
reserved ownership field (in the loose-equality sense of the source) with
the same field and operator but arbitrary (possibly different) values. -/
def sameButUserIdValue (c1 c2 : JSVal) : Prop :=
  c1 = c2 ∨
  (∃ p1 p2, c1 = .obj p1 ∧ c2 = .obj p2 ∧
    JSVal.objGet p1 "field" = JSVal.objGet p2 "field" ∧
    looseEqUserIdStr (JSVal.objGet p1 "field") = true ∧
    JSVal.objGet p1 "operator" = JSVal.objGet p2 "operator")

theorem stepCondition_userId_value_irrelevant (uid : String)
    (fc : List (String × JSVal)) (c1 c2 : JSVal)
    (h : sameButUserIdValue c1 c2) :
    stepCondition uid fc c1 = stepCondition uid fc c2 := by
  rcases h with rfl | ⟨p1, p2, rfl, rfl, hf, hu, hop⟩
  · rfl
  · simp only [stepCondition, JSVal.nullish, JSVal.getProp, hf, hop,
      hf ▸ hu, if_true]

theorem runConditionsFrom_userId_value_irrelevant (uid : String)
    (cs1 cs2 : List JSVal) (h : List.Forall₂ sameButUserIdValue cs1 cs2) :
    ∀ fc, runConditionsFrom uid fc cs1 = runConditionsFrom uid fc cs2 := by
  induction h with
  | nil => intro fc; rfl
  | @cons a b l1 l2 hrel htail ih =>
      intro fc
      simp only [runConditionsFrom]
      rw [stepCondition_userId_value_irrelevant uid fc a b hrel]
      cases stepCondition uid fc b with
      | error e => rfl
      | ok fc2 => exact ih fc2

/-- C2: the compiled filter is independent of the client-supplied value of
any condition on the reserved ownership field: two queries that differ only
in the values of userId-field conditions compile identically; and the
filter entry a userId equality condition produces is derived solely from
the caller's verified identity (the coerced uid), whatever value was
supplied. -/
theorem c2_userId_value_independence (uid : String) (cs1 cs2 : List JSVal)
    (rest : List (String × JSVal))
    (h : List.Forall₂ sameButUserIdValue cs1 cs2) :
    parseStructuredQueryVal (.obj (("conditions", .arr cs1) :: rest)) uid =
      parseStructuredQueryVal (.obj (("conditions", .arr cs2) :: rest)) uid ∧
    (∀ v : JSVal, runConditions uid [.obj [("field", .str "userId"),
        ("operator", .str "=="), ("value", v)]] =
      .ok [("userId", processValue (.str uid))]) := by
  constructor
  · have hopts : queryOptsOf (.obj (("conditions", .arr cs1) :: rest)) =
        queryOptsOf (.obj (("conditions", .arr cs2) :: rest)) := by
      simp [queryOptsOf, qPropD, JSVal.getProp, JSVal.objGet]
    simp [parseStructuredQueryVal, JSVal.nullish, qPropD, JSVal.getProp,
      JSVal.objGet, jsIterate, hopts]
    rw [show runConditions uid cs1 = runConditions uid cs2 from
      runConditionsFrom_userId_value_irrelevant uid cs1 cs2 h []]
  · intro v
    simp [runConditions, runConditionsFrom, stepCondition, JSVal.nullish,
      JSVal.getProp, JSVal.objGet, looseEqUserIdStr, JSVal.truthy, jsToString,
      opMapLookup, opMap, jsKeysLen, JSVal.objSet]

/-- Witness for C2: two queries filtering on userId with different
client-supplied values (`"victim"` vs `"other"`) compile identically, and
the equality entry is the coerced caller identity. -/
theorem c2_userId_value_independence_witness :
    parseStructuredQueryVal (.obj [("conditions", .arr
      [.obj [("field", .str "userId"), ("operator", .str "=="),
        ("value", .str "victim")]])]) "u1" =
    parseStructuredQueryVal (.obj [("conditions", .arr
      [.obj [("field", .str "userId"), ("operator", .str "=="),
        ("value", .str "other")]])]) "u1" ∧
    (∀ v : JSVal, runConditions "u1" [.obj [("field", .str "userId"),
        ("operator", .str "=="), ("value", v)]] =
      .ok [("userId", processValue (.str "u1"))]) :=
  c2_userId_value_independence "u1"
    [.obj [("field", .str "userId"), ("operator", .str "=="),
      ("value", .str "victim")]]
    [.obj [("field", .str "userId"), ("operator", .str "=="),
      ("value", .str "other")]]
    []
    (List.Forall₂.cons
      (Or.inr ⟨[("field", .str "userId"), ("operator", .str "=="),
          ("value", .str "victim")],
        [("field", .str "userId"), ("operator", .str "=="),
          ("value", .str "other")],
        rfl, rfl, by decide, by decide, by decide⟩)
      List.Forall₂.nil)

theorem dropWhile_head_false {α : Type} (p : α → Bool) :
    ∀ (l : List α) {a : α} {t : List α}, l.dropWhile p = a :: t → p a = false := by
  intro l
  induction l with
  | nil => intro a t h; exact absurd h (by simp)
  | cons x xs ih =>
      intro a t h
      by_cases hp : p x = true
      · exact ih (by simpa [List.dropWhile_cons, hp] using h)
      · have hx : x = a := by
          simp [List.dropWhile_cons, hp] at h
          exact h.1
        simpa [hx] using (by simpa using hp : p x = false)

theorem jsTrim_eq_nil_imp (l : List Char) (h : jsTrim l = []) :
    l.dropWhile isJsWs = [] := by
  unfold jsTrim at h
  have h2 : (l.dropWhile isJsWs).reverse.dropWhile isJsWs = [] := by
    have := congrArg List.reverse h
    simpa using this
  have hall : ∀ x ∈ (l.dropWhile isJsWs).reverse, isJsWs x :=
    List.dropWhile_eq_nil_iff.mp h2
  cases hd : l.dropWhile isJsWs with
  | nil => rfl
  | cons a t =>
      have ha : isJsWs a := by
        refine hall a ?_
        simp [hd]
      have := dropWhile_head_false isJsWs l hd
      rw [ha] at this
      exact absurd this (by simp)

theorem ltrim_eq_trim_append (l : List Char) :
    ∃ w, l.dropWhile isJsWs = jsTrim l ++ w ∧ ∀ x ∈ w, isJsWs x := by
  refine ⟨((l.dropWhile isJsWs).reverse.takeWhile isJsWs).reverse, ?_, ?_⟩
  · unfold jsTrim
    have : ((l.dropWhile isJsWs).reverse.dropWhile isJsWs).reverse ++
        ((l.dropWhile isJsWs).reverse.takeWhile isJsWs).reverse =
        l.dropWhile isJsWs := by
      rw [← List.reverse_append, List.takeWhile_append_dropWhile,
        List.reverse_reverse]
    exact this.symm
  · intro x hx
    exact List.mem_takeWhile_imp (List.mem_reverse.mp hx)

/-- The head of a signed literal: `startsUnsignedFloat` after the optional
sign, i.e. whether `parseFloat` finds a literal to start on. -/
def startsSignedFloat (t : List Char) : Bool :=
  startsUnsignedFloat (splitSign t).2

theorem startsUnsignedFloat_append (x w : List Char)
    (h : startsUnsignedFloat x = true) :
    startsUnsignedFloat (x ++ w) = true := by
  unfold startsUnsignedFloat at h ⊢
  rcases Bool.or_eq_true_iff.mp h with hp | hm
  · refine Bool.or_eq_true_iff.mpr (Or.inl ?_)
    have := List.isPrefixOf_iff_prefix.mp hp
    exact List.isPrefixOf_iff_prefix.mpr (this.trans (x.prefix_append w))
  · refine Bool.or_eq_true_iff.mpr (Or.inr ?_)
    cases x with
    | nil => simp at hm
    | cons c r =>
        rcases Bool.or_eq_true_iff.mp hm with hd | hdot
        · simp [hd]
        · cases r with
          | nil => simp at hdot
          | cons d r2 => simp_all

theorem startsSignedFloat_append (t w : List Char)
    (h : startsSignedFloat t = true) :
    startsSignedFloat (t ++ w) = true := by
  unfold startsSignedFloat at h ⊢
  cases t with
  | nil => simp [splitSign, startsUnsignedFloat] at h
  | cons c r =>
      by_cases hcm : c = '-'
      · subst hcm
        simpa [splitSign] using startsUnsignedFloat_append r w (by simpa [splitSign] using h)
      · by_cases hcp : c = '+'
        · subst hcp
          simpa [splitSign] using startsUnsignedFloat_append r w (by simpa [splitSign] using h)
        · have hsp : ∀ l : List Char, splitSign (c :: l) = (false, c :: l) := by
            intro l
            unfold splitSign
            split
            · rename_i heq
              injection heq with h1 h2
              exact absurd h1 hcm
            · rename_i heq
              injection heq with h1 h2
              exact absurd h1 hcp
            · rfl
          rw [List.cons_append] at *
          rw [hsp] at h
          rw [hsp]
          exact startsUnsignedFloat_append (c :: r) w h

theorem parseUnsignedDecimal_starts (t : List Char) (q : ℚ)
    (h : parseUnsignedDecimal t = some q) :
    startsUnsignedFloat t = true := by
  unfold parseUnsignedDecimal at h
  dsimp only at h
  have hsplit := List.takeWhile_append_dropWhile (p := Char.isDigit) (l := t)
  cases hip : t.takeWhile Char.isDigit with
  | cons a ip' =>
      have ha : a.isDigit := List.mem_takeWhile_imp (l := t)
        (p := Char.isDigit) (by rw [hip]; exact List.mem_cons_self a ip')
      have ht : t = a :: (ip' ++ t.dropWhile Char.isDigit) := by
        conv_lhs => rw [← hsplit]
        rw [hip]
        exact List.cons_append a ip' (t.dropWhile Char.isDigit)
      rw [ht]
      simp [startsUnsignedFloat, ha]
  | nil =>
      have ht : t = t.dropWhile Char.isDigit := by
        conv_lhs => rw [← hsplit]
        rw [hip]
        rfl
      rw [hip] at h
      split at h
      · rename_i r2 heq
        simp only [List.isEmpty_nil, true_and] at h
        cases hfp : r2.takeWhile Char.isDigit with
        | nil => rw [hfp] at h; simp at h
        | cons d fp' =>
            have hd : d.isDigit := List.mem_takeWhile_imp (l := r2)
              (p := Char.isDigit) (by rw [hfp]; exact List.mem_cons_self d fp')
            have hr2 : r2 = d :: (fp' ++ r2.dropWhile Char.isDigit) := by
              conv_lhs => rw [← List.takeWhile_append_dropWhile
                (p := Char.isDigit) (l := r2)]
              rw [hfp]
              exact List.cons_append d fp' (r2.dropWhile Char.isDigit)
            rw [ht, heq, hr2]
            simp [startsUnsignedFloat, hd]
      · simp at h

theorem parseSignedDecimalOrInf_starts (t : List Char) (n : JSNum)
    (h : parseSignedDecimalOrInf t = some n) :
    startsSignedFloat t = true := by
  unfold parseSignedDecimalOrInf at h
  unfold startsSignedFloat
  rcases hsp : splitSign t with ⟨neg, t1⟩
  rw [hsp] at h
  dsimp only at h
  dsimp only
  by_cases hinf : t1 = ['I', 'n', 'f', 'i', 'n', 'i', 't', 'y']
  · rw [hinf]
    decide
  · rw [if_neg hinf] at h
    cases hq : parseUnsignedDecimal t1 with
    | none => rw [hq] at h; simp at h
    | some q => exact parseUnsignedDecimal_starts t1 q hq

theorem parseNumericLiteral_starts (t : List Char) (n : JSNum)
    (h : parseNumericLiteral t = some n) :
    startsSignedFloat t = true := by
  unfold parseNumericLiteral at h
  split at h
  · rename_i c r
    split at h
    · simp [startsSignedFloat, splitSign, startsUnsignedFloat]
    · split at h
      · simp [startsSignedFloat, splitSign, startsUnsignedFloat]
      · split at h
        · simp [startsSignedFloat, splitSign, startsUnsignedFloat]
        · exact parseSignedDecimalOrInf_starts _ n h
  · exact parseSignedDecimalOrInf_starts _ n h

theorem coercible_iff (s : String) :
    ((jsStringToNumber s).isNaN = false ∧ jsParseFloatIsNaN s = false) ↔
      (jsTrim s.data ≠ [] ∧ (jsStringToNumber s).isNaN = false) := by
  constructor
  · rintro ⟨hnum, hpf⟩
    refine ⟨?_, hnum⟩
    intro htrim
    have hl : s.data.dropWhile isJsWs = [] := jsTrim_eq_nil_imp s.data htrim
    have : jsParseFloatIsNaN s = true := by
      simp [jsParseFloatIsNaN, hl, splitSign, startsUnsignedFloat]
    rw [this] at hpf
    exact absurd hpf (by simp)
  · rintro ⟨htrim, hnum⟩
    refine ⟨hnum, ?_⟩
    have hparse : ∃ n, parseNumericLiteral (jsTrim s.data) = some n := by
      unfold jsStringToNumber at hnum
      rw [if_neg (by simpa using htrim)] at hnum
      cases hp : parseNumericLiteral (jsTrim s.data) with
      | none => rw [hp] at hnum; simp [JSNum.isNaN] at hnum
      | some n => exact ⟨n, rfl⟩
    obtain ⟨n, hn⟩ := hparse
    have hstart : startsSignedFloat (jsTrim s.data) = true :=
      parseNumericLiteral_starts _ n hn
    obtain ⟨w, hw, hws⟩ := ltrim_eq_trim_append s.data
    have hstart2 : startsSignedFloat (s.data.dropWhile isJsWs) = true := by
      rw [hw]
      exact startsSignedFloat_append _ w hstart
    unfold startsSignedFloat at hstart2
    simp [jsParseFloatIsNaN, hstart2]

/-- C4 (amended): string coercion becomes the `Number` value exactly when
the trimmed string is non-empty and `Number` does not give NaN (this
includes infinite values like `"Infinity"` and radix literals, see
`c4_counterexample`); otherwise exactly `"true"`/`"false"` become booleans
and every other string is left unchanged. -/
theorem c4_coercion_characterization (s : String) :
    processValue (.str s) =
      (if jsTrim s.data ≠ [] ∧ (jsStringToNumber s).isNaN = false then
        JSVal.num (jsStringToNumber s)
      else if s = "true" then .bool true
      else if s = "false" then .bool false
      else .str s) := by
  simp only [processValue]
  by_cases hc : jsTrim s.data ≠ [] ∧ (jsStringToNumber s).isNaN = false
  · rw [if_pos hc]
    have hcode := (coercible_iff s).mpr hc
    rw [if_pos ⟨by simp [hcode.1], by simp [hcode.2]⟩]
  · rw [if_neg hc]
    have hneg : ¬((jsStringToNumber s).isNaN = false ∧
        jsParseFloatIsNaN s = false) := fun hcon => hc ((coercible_iff s).mp hcon)
    have hneg2 : ¬(¬ (jsStringToNumber s).isNaN = true ∧
        ¬ jsParseFloatIsNaN s = true) := by
      simpa [Bool.not_eq_true] using hneg
    rw [if_neg hneg2]

/-- The condition value after the ownership forcing (source lines 71-74). -/
def forcedValue (uid : String) (c : JSVal) : JSVal :=
  if looseEqUserIdStr (JSVal.getProp c "field") then JSVal.str uid
  else JSVal.getProp c "value"

/-- The malformed-condition skip test (source line 78), evaluated after the
ownership forcing. -/
def condSkipped (uid : String) (c : JSVal) : Prop :=
  ¬ (JSVal.getProp c "field").truthy ∨ ¬ (JSVal.getProp c "operator").truthy ∨
    forcedValue uid c = .undefined

instance (uid : String) (c : JSVal) : Decidable (condSkipped uid c) := by
  unfold condSkipped; infer_instance

/-- Whether a value is a string. -/
def isStrVal : JSVal → Bool
  | .str _ => true
  | _ => false

/-- The conditions on which one loop iteration throws: a `null`/`undefined`
condition entry (destructuring TypeError), or a non-skipped `like`
condition whose coerced value is not a string (`.replace` TypeError). -/
def condThrows (uid : String) (c : JSVal) : Prop :=
  c.nullish = true ∨
  (¬ condSkipped uid c ∧ JSVal.getProp c "operator" = .str "like" ∧
    isStrVal (processValue (forcedValue uid c)) = false)

instance (uid : String) (c : JSVal) : Decidable (condThrows uid c) := by
  unfold condThrows; infer_instance

theorem stepCondition_skip_of (uid : String) (fc : List (String × JSVal))
    (c : JSVal) (hn : c.nullish = false) (hs : condSkipped uid c) :
    stepCondition uid fc c = .ok fc := by
  unfold stepCondition
  rw [hn]
  simp only [Bool.false_eq_true, if_false]
  rw [if_pos]
  exact hs

theorem stepCondition_like_nonstr (uid : String) (fc : List (String × JSVal))
    (c : JSVal) (hn : c.nullish = false) (hns : ¬ condSkipped uid c)
    (hlike : JSVal.getProp c "operator" = .str "like")
    (hnstr : isStrVal (processValue (forcedValue uid c)) = false) :
    stepCondition uid fc c = .error .replaceNonString := by
  unfold stepCondition
  rw [hn]
  simp only [Bool.false_eq_true, if_false]
  rw [if_neg (by exact hns)]
  rw [hlike]
  simp only [forcedValue, hlike] at hnstr
  cases hpv : processValue (if looseEqUserIdStr (JSVal.getProp c "field") = true
      then JSVal.str uid else JSVal.getProp c "value") with
  | str s => rw [hpv] at hnstr; simp [isStrVal] at hnstr
  | undefined => simp [jsToString, opMapLookup, opMap, hpv]
  | null => simp [jsToString, opMapLookup, opMap, hpv]
  | bool b => simp [jsToString, opMapLookup, opMap, hpv]
  | num n => simp [jsToString, opMapLookup, opMap, hpv]
  | protoFn name => simp [jsToString, opMapLookup, opMap, hpv]
  | arr xs => simp [jsToString, opMapLookup, opMap, hpv]
  | obj props => simp [jsToString, opMapLookup, opMap, hpv]

theorem stepCondition_ok_shape (uid : String) (fc : List (String × JSVal))
    (c : JSVal) (hn : c.nullish = false) (hns : ¬ condSkipped uid c)
    (hother : JSVal.getProp c "operator" ≠ .str "like" ∨
      isStrVal (processValue (forcedValue uid c)) = true) :
    ∃ fc2, stepCondition uid fc c = .ok fc2 := by
  unfold stepCondition
  rw [hn]
  simp only [Bool.false_eq_true, if_false]
  rw [if_neg (by exact hns)]
  rcases hm : opMapLookup (jsToString (JSVal.getProp c "operator")) with _ | mop
  · exact ⟨_, rfl⟩
  · dsimp only
    by_cases h1 : JSVal.getProp c "operator" = .str "array-contains"
    · rw [if_pos h1]; exact ⟨_, rfl⟩
    · rw [if_neg h1]
      by_cases h2 : JSVal.getProp c "operator" = .str "array-contains-any" ∨
          JSVal.getProp c "operator" = .str "in" ∨
          JSVal.getProp c "operator" = .str "nin"
      · rw [if_pos h2]; exact ⟨_, rfl⟩
      · rw [if_neg h2]
        by_cases h3 : JSVal.getProp c "operator" = .str "exists"
        · rw [if_pos h3]; exact ⟨_, rfl⟩
        · rw [if_neg h3]
          by_cases h4 : JSVal.getProp c "operator" = .str "regex"
          · rw [if_pos h4]; exact ⟨_, rfl⟩
          · rw [if_neg h4]
            by_cases h5 : JSVal.getProp c "operator" = .str "like"
            · rw [if_pos h5]
              rcases hother with hnl | hstr
              · exact absurd h5 hnl
              · simp only [forcedValue] at hstr
                cases hpv : processValue
                    (if looseEqUserIdStr (JSVal.getProp c "field") = true
                      then JSVal.str uid else JSVal.getProp c "value") with
                | str s => exact ⟨_, rfl⟩
                | undefined => rw [hpv] at hstr; simp [isStrVal] at hstr
                | null => rw [hpv] at hstr; simp [isStrVal] at hstr
                | bool b => rw [hpv] at hstr; simp [isStrVal] at hstr
                | num n => rw [hpv] at hstr; simp [isStrVal] at hstr
                | protoFn name => rw [hpv] at hstr; simp [isStrVal] at hstr
                | arr xs => rw [hpv] at hstr; simp [isStrVal] at hstr
                | obj props => rw [hpv] at hstr; simp [isStrVal] at hstr
            · rw [if_neg h5]
              by_cases h6 : JSVal.getProp c "operator" = .str "=="
              · rw [if_pos h6]
                by_cases h7 : jsKeysLen (JSVal.objGet
                    (if ¬ (JSVal.objGet fc
                        (jsToString (JSVal.getProp c "field"))).truthy = true then
                      JSVal.objSet fc (jsToString (JSVal.getProp c "field"))
                        (.obj [])
                    else fc) (jsToString (JSVal.getProp c "field"))) = 0
                · rw [if_pos h7]; exact ⟨_, rfl⟩
                · rw [if_neg h7]; exact ⟨_, rfl⟩
              · rw [if_neg h6]; exact ⟨_, rfl⟩

theorem stepCondition_error_iff (uid : String) (fc : List (String × JSVal))
    (c : JSVal) :
    (∃ e, stepCondition uid fc c = .error e) ↔ condThrows uid c := by
  by_cases hn : c.nullish = true
  · constructor
    · intro _; exact Or.inl hn
    · intro _
      refine ⟨.destructureNullish, ?_⟩
      unfold stepCondition
      rw [hn]
      rfl
  · have hn2 : c.nullish = false := by simpa using hn
    by_cases hs : condSkipped uid c
    · rw [stepCondition_skip_of uid fc c hn2 hs]
      constructor
      · rintro ⟨e, he⟩
        exact absurd he (by simp)
      · rintro (h | ⟨hns, _, _⟩)
        · rw [hn2] at h; exact absurd h (by simp)
        · exact absurd hs hns
    · by_cases hlike : JSVal.getProp c "operator" = .str "like"
      · by_cases hstr : isStrVal (processValue (forcedValue uid c)) = true
        · obtain ⟨fc2, hok⟩ := stepCondition_ok_shape uid fc c hn2 hs (Or.inr hstr)
          rw [hok]
          constructor
          · rintro ⟨e, he⟩
            exact absurd he (by simp)
          · rintro (h | ⟨_, _, hnstr⟩)
            · rw [hn2] at h; exact absurd h (by simp)
            · rw [hnstr] at hstr; exact absurd hstr (by simp)
        · have hnstr : isStrVal (processValue (forcedValue uid c)) = false := by
            simpa using hstr
          rw [stepCondition_like_nonstr uid fc c hn2 hs hlike hnstr]
          constructor
          · intro _
            exact Or.inr ⟨hs, hlike, hnstr⟩
          · intro _
            exact ⟨_, rfl⟩
      · obtain ⟨fc2, hok⟩ := stepCondition_ok_shape uid fc c hn2 hs (Or.inl hlike)
        rw [hok]
        constructor
        · rintro ⟨e, he⟩
          exact absurd he (by simp)
        · rintro (h | ⟨_, hl, _⟩)
          · rw [hn2] at h; exact absurd h (by simp)
          · exact absurd hl hlike

theorem runConditionsFrom_error_iff (uid : String) (cs : List JSVal) :
    ∀ fc, (∃ e, runConditionsFrom uid fc cs = .error e) ↔
      ∃ c ∈ cs, condThrows uid c := by
  induction cs with
  | nil =>
      intro fc
      simp [runConditionsFrom]
  | cons c rest ih =>
      intro fc
      simp only [runConditionsFrom]
      cases hstep : stepCondition uid fc c with
      | error e =>
          have hthrows : condThrows uid c :=
            (stepCondition_error_iff uid fc c).mp ⟨e, hstep⟩
          simp [hthrows]
      | ok fc2 =>
          have hnothrows : ¬ condThrows uid c := by
            intro ht
            obtain ⟨e, he⟩ := (stepCondition_error_iff uid fc c).mpr ht
            rw [hstep] at he
            exact absurd he (by simp)
          constructor
          · intro h
            obtain ⟨c2, hc2, ht2⟩ := (ih fc2).mp h
            exact ⟨c2, List.mem_cons_of_mem c hc2, ht2⟩
          · rintro ⟨c2, hc2, ht2⟩
            rcases List.mem_cons.mp hc2 with rfl | hmem
            · exact absurd ht2 hnothrows
            · exact (ih fc2).mpr ⟨c2, hmem, ht2⟩

theorem Json.toVal_nullish_iff (q : Json) :
    q.toVal.nullish = true ↔ q = Json.null := by
  cases q <;> simp [Json.toVal, JSVal.nullish]

theorem jsIterate_error_eq (v : JSVal) (e : JSErr)
    (h : jsIterate v = .error e) : e = .notIterable := by
  cases v <;> simp [jsIterate] at h <;> exact h.symm

theorem objSet_objSet (props : List (String × JSVal)) (k : String)
    (v w : JSVal) :
    JSVal.objSet (JSVal.objSet props k v) k w = JSVal.objSet props k w := by
  induction props with
  | nil => simp [JSVal.objSet]
  | cons p rest ih =>
      rcases p with ⟨k2, u⟩
      by_cases h : k2 = k <;> simp [JSVal.objSet, h, ih]

theorem placeholderOf_inj (a b : String) (h : placeholderOf a = placeholderOf b) :
    a = b := by
  unfold placeholderOf at h
  have hd : [lbraceChar, lbraceChar] ++ a.data ++ [rbraceChar, rbraceChar] =
      [lbraceChar, lbraceChar] ++ b.data ++ [rbraceChar, rbraceChar] := by
    have := congrArg String.data h
    simpa using this
  have hdata : a.data = b.data := by
    have h1 := List.append_cancel_left
      ((List.append_assoc _ _ _).symm.trans hd |>.trans (List.append_assoc _ _ _))
    exact List.append_cancel_right h1
  rcases a with ⟨ad⟩
  rcases b with ⟨bd⟩
  have : ad = bd := by simpa using hdata
  rw [this]

theorem placeholderKey_eq_some_iff (s k : String) :
    placeholderKey s = some k ↔ s = placeholderOf k := by
  unfold placeholderKey placeholderOf
  constructor
  · intro h
    split at h
    · rename_i hcond
      obtain ⟨hpre, hsuf⟩ := hcond
      obtain ⟨t, ht0⟩ := List.isPrefixOf_iff_prefix.mp hpre
      obtain ⟨u, hu0⟩ := List.isSuffixOf_iff_suffix.mp hsuf
      have ht : s.data = [lbraceChar, lbraceChar] ++ t := ht0.symm
      have hu : s.data = u ++ [rbraceChar, rbraceChar] := hu0.symm
      have hud : [lbraceChar, lbraceChar] ++ t = u ++ [rbraceChar, rbraceChar] :=
        ht.symm.trans hu
      match u, hud with
      | [], hud =>
          exfalso
          have := congrArg (fun l => l.head?) hud
          simp [lbraceChar, rbraceChar] at this
      | [x], hud =>
          exfalso
          have hx : x = lbraceChar := by
            have := congrArg (fun l => l.head?) hud
            simpa using this.symm
          subst hx
          have := congrArg (fun l => l.tail.head?) hud
          simp [lbraceChar, rbraceChar] at this
      | x :: y :: u', hud =>
          have hx : x = lbraceChar := by
            have := congrArg (fun l => l.head?) hud
            simpa using this.symm
          have hy : y = lbraceChar := by
            have := congrArg (fun l => l.tail.head?) hud
            simpa using this.symm
          subst hx
          subst hy
          have ht' : t = u' ++ [rbraceChar, rbraceChar] := by
            have := hud
            simpa using this
          injection h with hk
          have hdrop : s.data.drop 2 = t := by rw [ht]; rfl
          have hlen : s.data.length - 4 = u'.length := by
            rw [ht, ht']
            simp
          rw [hdrop, hlen, ht'] at hk
          rw [List.take_left] at hk
          rw [← hk]
          have : s.data = [lbraceChar, lbraceChar] ++ u' ++
              [rbraceChar, rbraceChar] := by
            rw [ht, ht']
            simp
          rcases s with ⟨sd⟩
          simp only [String.data] at this
          simp [this]
    · exact absurd h (by simp)
  · intro h
    subst h
    have hdata : (String.mk ([lbraceChar, lbraceChar] ++ k.data ++
        [rbraceChar, rbraceChar])).data =
        [lbraceChar, lbraceChar] ++ k.data ++ [rbraceChar, rbraceChar] := rfl
    rw [if_pos]
    · have hdrop : ([lbraceChar, lbraceChar] ++ k.data ++
          [rbraceChar, rbraceChar]).drop 2 = k.data ++ [rbraceChar, rbraceChar] := by
        simp
      have hlen : ([lbraceChar, lbraceChar] ++ k.data ++
          [rbraceChar, rbraceChar]).length - 4 = k.data.length := by
        simp
      rw [hdata]
      rw [hdrop, hlen, List.take_left]
    · constructor
      · rw [hdata]
        refine List.isPrefixOf_iff_prefix.mpr ?_
        exact ⟨k.data ++ [rbraceChar, rbraceChar], by simp⟩
      · rw [hdata]
        refine List.isSuffixOf_iff_suffix.mpr ?_
        exact ⟨[lbraceChar, lbraceChar] ++ k.data, by simp⟩

theorem find?_placeholder (params : List (String × JSVal)) (k : String)
    (hnd : (params.map Prod.fst).Nodup) :
    params.find? (fun kv => kv.2 ≠ .undefined ∧ placeholderOf k = placeholderOf kv.1) =
      (if JSVal.objGet params k = .undefined then none
       else some (k, JSVal.objGet params k)) := by
  induction params with
  | nil => simp [JSVal.objGet]
  | cons p rest ih =>
      rcases p with ⟨k2, v2⟩
      have hnd2 : (rest.map Prod.fst).Nodup := (List.nodup_cons.mp hnd).2
      have hknotin : k2 ∉ rest.map Prod.fst := (List.nodup_cons.mp hnd).1
      by_cases hk : k2 = k
      · subst hk
        by_cases hv : v2 = .undefined
        · subst hv
          rw [List.find?_cons_of_neg _ (by simp)]
          rw [show JSVal.objGet ((k2, JSVal.undefined) :: rest) k2 = JSVal.undefined
            from by simp [JSVal.objGet]]
          rw [if_pos rfl]
          rw [List.find?_eq_none]
          rintro ⟨k3, v3⟩ hmem hp
          have hp2 : v3 ≠ JSVal.undefined ∧ placeholderOf k2 = placeholderOf k3 := by
            simpa using hp
          have : k3 = k2 := (placeholderOf_inj _ _ hp2.2).symm
          subst this
          exact hknotin (List.mem_map.mpr ⟨(k3, v3), hmem, rfl⟩)
        · rw [List.find?_cons_of_pos _ (by simp [hv])]
          rw [show JSVal.objGet ((k2, v2) :: rest) k2 = v2
            from by simp [JSVal.objGet]]
          rw [if_neg hv]
      · rw [List.find?_cons_of_neg _ (by
          simp only [decide_eq_true_eq, not_and]
          intro _
          exact fun hpl => hk ((placeholderOf_inj _ _ hpl).symm))]
        rw [show JSVal.objGet ((k2, v2) :: rest) k = JSVal.objGet rest k
          from by simp [JSVal.objGet, hk]]
        exact ih hnd2

theorem objGet_eq_find (params : List (String × JSVal)) (k : String) :
    JSVal.objGet params k =
      (match params.find? (fun kv => kv.1 = k) with
       | some kv => kv.2
       | none => JSVal.undefined) := by
  induction params with
  | nil => rfl
  | cons p rest ih =>
      rcases p with ⟨k2, v2⟩
      by_cases h : k2 = k
      · rw [List.find?_cons_of_pos _ (by simp [h])]
        simp [JSVal.objGet, h]
      · rw [List.find?_cons_of_neg _ (by simp [h])]
        rw [show JSVal.objGet ((k2, v2) :: rest) k = JSVal.objGet rest k
          from by simp [JSVal.objGet, h]]
        exact ih

theorem paramGet_eq_objGet (params : List (String × JSVal)) (k : String)
    (hsafe : (params.find? (fun kv => kv.1 = k)).isSome = true ∨
      k ∉ objectProtoNames) :
    paramGet params k = JSVal.objGet params k := by
  rw [objGet_eq_find]
  unfold paramGet
  cases hf : params.find? (fun kv => kv.1 = k) with
  | some kv => rfl
  | none =>
      rcases hsafe with h | h
      · rw [hf] at h
        simp at h
      · simp [h]

theorem replaceInChild_str_eq (params : List (String × JSVal))
    (hnd : (params.map Prod.fst).Nodup) (s : String)
    (hsafe : ∀ k, placeholderKey s = some k →
      (params.find? (fun kv => kv.1 = k)).isSome = true ∨
        k ∉ objectProtoNames) :
    replaceInChild params (.str s) = specSubstLeaf params s := by
  unfold replaceInChild specSubstLeaf
  cases hpk : placeholderKey s with
  | none =>
      have hnone : params.find? (fun kv => kv.2 ≠ .undefined ∧
          s = placeholderOf kv.1) = none := by
        rw [List.find?_eq_none]
        rintro ⟨k3, v3⟩ hmem hp
        have hp2 : v3 ≠ JSVal.undefined ∧ s = placeholderOf k3 := by simpa using hp
        have : placeholderKey s = some k3 :=
          (placeholderKey_eq_some_iff s k3).mpr hp2.2
        rw [hpk] at this
        exact absurd this (by simp)
      rw [hnone]
  | some k =>
      have hs : s = placeholderOf k := (placeholderKey_eq_some_iff s k).mp hpk
      rw [show (fun kv : String × JSVal =>
          decide (kv.2 ≠ JSVal.undefined ∧ s = placeholderOf kv.1)) =
          (fun kv : String × JSVal =>
          decide (kv.2 ≠ JSVal.undefined ∧ placeholderOf k = placeholderOf kv.1))
        from by rw [hs]]
      rw [find?_placeholder params k hnd]
      dsimp only
      rw [paramGet_eq_objGet params k (hsafe k hpk)]
      by_cases hu : JSVal.objGet params k = .undefined
      · rw [if_pos hu]
        dsimp only
        rw [hu]
      · rw [if_neg hu]
        dsimp only
        cases hg : JSVal.objGet params k with
        | undefined => exact absurd hg hu
        | null => rfl
        | bool b => rfl
        | num n => rfl
        | str s2 => rfl
        | arr xs => rfl
        | obj props => rfl
        | protoFn name => rfl

mutual

theorem replaceInChild_eq_spec (params : List (String × JSVal))
    (hnd : (params.map Prod.fst).Nodup) :
    ∀ v : JSVal, placeholdersProtoSafe params v = true →
      replaceInChild params v = specSubstVal params v
  | .undefined, _ => rfl
  | .null, _ => rfl
  | .bool b, _ => rfl
  | .num n, _ => rfl
  | .protoFn name, _ => rfl
  | .str s, hg =>
      (replaceInChild_str_eq params hnd s (by
        intro k hk
        have hg2 : (match placeholderKey s with
            | some k =>
                (params.find? (fun kv => kv.1 = k)).isSome ||
                  decide (k ∉ objectProtoNames)
            | none => true) = true := hg
        rw [hk] at hg2
        simpa using hg2)).trans rfl
  | .obj props, hg => by
      show JSVal.obj (replaceInProps params props) = _
      rw [replaceInProps_eq_spec params hnd props hg]
      rfl
  | .arr xs, hg => by
      show JSVal.arr (replaceInElems params xs) = _
      rw [replaceInElems_eq_spec params hnd xs hg]
      rfl

theorem replaceInProps_eq_spec (params : List (String × JSVal))
    (hnd : (params.map Prod.fst).Nodup) :
    ∀ props : List (String × JSVal),
      placeholdersProtoSafeProps params props = true →
      replaceInProps params props = specSubstProps params props
  | [], _ => rfl
  | (k, v) :: rest, hg => by
      have hg2 : placeholdersProtoSafe params v = true ∧
          placeholdersProtoSafeProps params rest = true := by
        have hg3 : (placeholdersProtoSafe params v &&
            placeholdersProtoSafeProps params rest) = true := hg
        simpa using hg3
      show (k, replaceInChild params v) :: replaceInProps params rest = _
      rw [replaceInChild_eq_spec params hnd v hg2.1,
        replaceInProps_eq_spec params hnd rest hg2.2]
      rfl

theorem replaceInElems_eq_spec (params : List (String × JSVal))
    (hnd : (params.map Prod.fst).Nodup) :
    ∀ xs : List JSVal, placeholdersProtoSafeElems params xs = true →
      replaceInElems params xs = specSubstElems params xs
  | [], _ => rfl
  | v :: rest, hg => by
      have hg2 : placeholdersProtoSafe params v = true ∧
          placeholdersProtoSafeElems params rest = true := by
        have hg3 : (placeholdersProtoSafe params v &&
            placeholdersProtoSafeElems params rest) = true := hg
        simpa using hg3
      show replaceInChild params v :: replaceInElems params rest = _
      rw [replaceInChild_eq_spec params hnd v hg2.1,
        replaceInElems_eq_spec params hnd rest hg2.2]
      rfl

end

/-- Whether a value is an object or an array (the shape of a well-formed
pipeline stage). -/
def isObjOrArr : JSVal → Bool
  | .obj _ => true
  | .arr _ => true
  | _ => false

/-- C9 counterexample: with an empty params object, a stage holding the
placeholder leaf for the identifier `toString` is not left as literal
placeholder text: `params['toString']` resolves through the prototype
chain to the inherited `Object.prototype.toString`, which compares
`!== undefined`, so the source walk substitutes the inherited member into
the stage, while the substitution as the specification words it keeps the
literal text. -/
theorem c9_counterexample :
    replaceParametersInPipeline
      [.obj [("$match", .obj [("x", .str (placeholderOf "toString"))])]] [] =
      [.obj [("$match", .obj [("x", .protoFn "toString")])]] ∧
    [JSVal.obj [("$match", .obj [("x", .str (placeholderOf "toString"))])]].map
        (specSubstVal []) =
      [.obj [("$match", .obj [("x", .str (placeholderOf "toString"))])]] ∧
    JSVal.protoFn "toString" ≠ .str (placeholderOf "toString") := by
  refine ⟨by decide, by decide, by decide⟩

/-- C9 (amended): on a pipeline none of whose placeholder identifiers both
lack an own param entry and collide with an `Object.prototype` member
name, parameter substitution is exactly the substitution the spec
describes: every leaf string inside a stage that is exactly one
placeholder token with a matching (defined) param is replaced by that
param's value, type preserved; placeholder leaves without a matching param
and all other leaves are left unchanged; objects and arrays are walked
recursively.  Stages are objects or arrays (a degenerate stage that is
itself a bare string is not walked), and params come from a JSON object,
whose keys are unique.  Without the no-collision guard the equality fails:
see the counterexample, where an unmatched `toString` placeholder is
substituted by the inherited prototype member. -/
theorem c9_parameter_substitution (pipeline : List JSVal)
    (params : List (String × JSVal))
    (hshape : ∀ st ∈ pipeline, isObjOrArr st = true)
    (hnd : (params.map Prod.fst).Nodup)
    (hsafe : ∀ st ∈ pipeline, placeholdersProtoSafe params st = true) :
    replaceParametersInPipeline pipeline params =
      pipeline.map (specSubstVal params) := by
  unfold replaceParametersInPipeline
  apply List.map_congr_left
  intro st hst
  have hsh := hshape st hst
  have hsf := hsafe st hst
  cases st with
  | obj props =>
      show JSVal.obj (replaceInProps params props) = _
      rw [replaceInProps_eq_spec params hnd props hsf]
      rfl
  | arr xs =>
      show JSVal.arr (replaceInElems params xs) = _
      rw [replaceInElems_eq_spec params hnd xs hsf]
      rfl
  | undefined => simp [isObjOrArr] at hsh
  | null => simp [isObjOrArr] at hsh
  | bool b => simp [isObjOrArr] at hsh
  | num n => simp [isObjOrArr] at hsh
  | str s => simp [isObjOrArr] at hsh
  | protoFn name => simp [isObjOrArr] at hsh

/-- Witness for C9 (amended), the spec's own example: substituting
`userId`/`qty` params into a `$match` template replaces both placeholders
type-preservingly (the numeric param stays a number) and leaves a
placeholder without a matching param as literal text (its identifier
`missing` does not collide with an `Object.prototype` member). -/
theorem c9_parameter_substitution_witness :
    replaceParametersInPipeline
      [.obj [("$match", .obj [("userId", .str (placeholderOf "userId")),
        ("qty", .str (placeholderOf "qty")),
        ("note", .str (placeholderOf "missing"))])]]
      [("userId", .str "u1"), ("qty", .num (.finite 3))] =
    [.obj [("$match", .obj [("userId", .str "u1"),
      ("qty", .num (.finite 3)),
      ("note", .str (placeholderOf "missing"))])]] :=
  (c9_parameter_substitution
    [.obj [("$match", .obj [("userId", .str (placeholderOf "userId")),
      ("qty", .str (placeholderOf "qty")),
      ("note", .str (placeholderOf "missing"))])]]
    [("userId", .str "u1"), ("qty", .num (.finite 3))]
    (by decide) (by decide) (by decide)).trans (by decide)
